import Mathlib

/-!
Verification of the NavPlan itinerary-construction engine against its
natural-language specification.  The definitions below are a shallow
embedding of the Python source under `src/backend/`:

* `services/schedule_service.py` — schedule packing (`generate_schedule`,
  `get_visit_duration`, `estimate_travel_time`, `calculate_total_duration`);
* `services/ai_service.py` — place selection and AI-assisted ordering
  (`preference_based_selection`, `ai_optimization`);
* `services/public_data_service.py` — POI discovery
  (`search_pois_near_location`, `_deduplicate_pois`);
* `routes/schedules.py` — the two schedule endpoints' guard logic.

Conventions: clock instants are minutes since midnight as `Int` (the code
keeps `datetime` values on one calendar day and formats them back to
`HH:MM`; all arithmetic is in whole minutes, so the integer instant is
exactly the information carried).  Coordinates are `ℚ`.  Python dicts with
optional keys become structures with `Option` fields.
-/

namespace NavPlan

/-- Travel modes, from `db/models.py` (`TravelMode`). -/
inductive TravelMode where
  | walking
  | bicycling
  | driving
  | transit
deriving DecidableEq, Repr

/-- A place dictionary as it flows through the pipeline.  Fields mirror the
keys read by the services: `id`, `name`, `category` (raw provider category,
read by `preference_based_selection`), `placeType` (read by
`generate_schedule` and `ai_optimization`), coordinates, and the enrichment
fields `duration_minutes` / `ai_review` attached by the AI stage. -/
structure Place where
  id : Option String := none
  name : Option String := none
  category : Option String := none
  placeType : Option String := none
  lat : ℚ := 0
  lng : ℚ := 0
  duration_minutes : Option Int := none
  ai_review : Option String := none
deriving DecidableEq, Repr

/-- A travel leg between consecutive schedule items
(`RouteSegment` in `db/models.py`): travel minutes and distance in meters.
The code stores `duration` in seconds (`travel_time_minutes * 60`) plus a
formatted text and a polyline; the minute count carries the scheduling
information. -/
structure RouteSeg where
  travel_minutes : Int
  distance_meters : Int
deriving DecidableEq, Repr

/-- A schedule item (`ScheduleItem` in `db/models.py`).  `start_min` /
`end_min` are the instants the code formats as `HH:MM` strings. -/
structure SchedItem where
  place_id : Option String
  item_name : Option String
  start_min : Int
  end_min : Int
  duration_minutes : Int
  travel_to_next : Option RouteSeg := none
deriving DecidableEq, Repr

/-- The built schedule (`Schedule` in `db/models.py`). -/
structure Schedule where
  items : List SchedItem
  total_duration_minutes : Int
  total_distance_meters : Int
  day_overview : Option String
deriving DecidableEq, Repr

/-- The category-default visit durations
(`DEFAULT_VISIT_DURATION_MINUTES` in `schedule_service.py`). -/
def DEFAULT_VISIT_DURATION_MINUTES : List (String × Int) :=
  [("restaurant", 90), ("cafe", 45), ("bar", 60), ("museum", 120),
   ("art_gallery", 90), ("park", 60), ("shopping_mall", 90),
   ("tourist_attraction", 90), ("amusement_park", 180), ("zoo", 180),
   ("aquarium", 120), ("church", 45), ("default", 60)]

/-- ASCII lowering, the effect of Python's `str.lower()` on the strings that
occur here; written over the character list so that concrete evaluation
reduces in the kernel. -/
def lowerStr (s : String) : String := String.mk (s.data.map Char.toLower)

/-- `get_visit_duration` in `schedule_service.py`: the loop over
`place_types` returns the table entry of the first lowercased type present
in the table, else the table's `"default"` entry (60). -/
def get_visit_duration (place_types : List String) : Int :=
  match place_types with
  | [] => (DEFAULT_VISIT_DURATION_MINUTES.lookup "default").getD 60
  | t :: ts =>
    match DEFAULT_VISIT_DURATION_MINUTES.lookup (lowerStr t) with
    | some d => d
    | none => get_visit_duration ts

/-- The visit-duration decision at the top of the `generate_schedule` loop
(lines 94–99): an AI-suggested positive integer duration wins, otherwise the
category default for the place's `placeType` (default key when absent). -/
def effective_duration (p : Place) : Int :=
  match p.duration_minutes with
  | some d => if 0 < d then d else get_visit_duration [p.placeType.getD "default"]
  | none => get_visit_duration [p.placeType.getD "default"]

/-- `TRAVEL_SPEED_KM_PER_HOUR` in `schedule_service.py`. -/
def travelSpeedKmPerHour : TravelMode → ℚ
  | .walking => 5
  | .bicycling => 15
  | .driving => 40
  | .transit => 25

/-- `estimate_travel_time` in `schedule_service.py`: minutes =
`ceil(distance_km / speed * 60)` with a floor of 5 for walking and 3 for
every other mode.  The Python computes over floats; the same expressions are
taken over `ℚ` (every operation involved is monotone in both models). -/
def estimate_travel_time (distance_km : ℚ) (mode : TravelMode) : Int :=
  let speed := travelSpeedKmPerHour mode
  let travel_mins := ⌈distance_km / speed * 60⌉
  let min_time : Int := if mode = TravelMode.walking then 5 else 3
  max min_time travel_mins

/-- `calculate_total_duration` in `schedule_service.py`: whole minutes
between two instants (the code divides `total_seconds` by 60 and truncates;
both instants are whole minutes so this is exact subtraction). -/
def calculate_total_duration (start_min end_min : Int) : Int :=
  end_min - start_min

/-- The duration-fitting check at lines 103–119 of `generate_schedule`: if
the projected end `current + dur0` passes the window end, the place is
dropped (`none`) when fewer than 15 minutes remain, otherwise shrunk to
`max 15 (remaining - 5)`; a fitting place keeps its duration. -/
def fitDuration (endT current dur0 : Int) : Option Int :=
  if current + dur0 > endT then
    if endT - current < 15 then none
    else some (max 15 (endT - current - 5))
  else some dur0

/-- One run of the `for i, place in enumerate(places)` loop of
`generate_schedule` (lines 89–212).  `travelOf i` abstracts the travel
minutes from place `i` to place `i+1` (lines 163–176: either
`ceil(duration_seconds/60)` of pre-calculated API data or the haversine
fallback `estimate_travel_time`; both are nonnegative integers), and
`distOf i` the corresponding `distance_meters`.  Returns the emitted items,
the final `current_datetime`, and the accumulated `total_distance_meters`.
Faithful points: a place is dropped and the loop breaks when fewer than 15
minutes remain; a too-long visit is shrunk via `fitDuration`; on the
travel-overflow break (lines 180–184) the item is appended but
`current_datetime` is left at the item's start. -/
def buildLoop (travelOf distOf : Nat → Nat) (endT : Int) :
    List Place → Nat → Int → List SchedItem × Int × Int
  | [], _, current => ([], current, 0)
  | p :: rest, i, current =>
    match fitDuration endT current (effective_duration p) with
    | none => ([], current, 0)
    | some dur =>
      let visitEnd := current + dur
      let item : SchedItem :=
        { place_id := p.id, item_name := p.name, start_min := current,
          end_min := visitEnd, duration_minutes := dur }
      match rest with
      | [] => ([item], visitEnd, 0)
      | _ :: _ =>
        if visitEnd + (travelOf i : Int) > endT then ([item], current, 0)
        else if visitEnd + (travelOf i : Int) ≥ endT then
          ([{ item with travel_to_next := some ⟨travelOf i, distOf i⟩ }],
            visitEnd + (travelOf i : Int), (distOf i : Int))
        else
          let r := buildLoop travelOf distOf endT rest (i + 1)
            (visitEnd + (travelOf i : Int))
          ({ item with travel_to_next := some ⟨travelOf i, distOf i⟩ } :: r.1,
            r.2.1, (distOf i : Int) + r.2.2)

/-- The post-processing at lines 214–231 of `generate_schedule`: the last
item, when it carries no travel segment, receives a zero self-segment so map
rendering has an anchor.  Instants and durations are untouched. -/
def addDummySegment : List SchedItem → List SchedItem
  | [] => []
  | it :: rest =>
    match rest with
    | [] =>
      match it.travel_to_next with
      | none => [{ it with travel_to_next := some ⟨0, 0⟩ }]
      | some _ => [it]
    | _ :: _ => it :: addDummySegment rest

/-- `generate_schedule` in `schedule_service.py` (lines 44–251): run the
packing loop from the window start, attach the dummy segment, and compute
`total_duration_minutes` — `calculate_total_duration(start, current)`,
overridden by the window span when `current > end` (lines 233–243; total is
0 for an empty item list). -/
def generate_schedule (travelOf distOf : Nat → Nat) (places : List Place)
    (startT endT : Int) (day_overview : Option String) : Schedule :=
  let (items0, finalCur, dist) := buildLoop travelOf distOf endT places 0 startT
  let items := addDummySegment items0
  let total : Int :=
    if items0 = [] then 0
    else if finalCur > endT then endT - startT
    else calculate_total_duration startT finalCur
  { items := items, total_duration_minutes := total,
    total_distance_meters := dist, day_overview := day_overview }

/-! ### Helper lemmas for the schedule builder -/

theorem lookup_pos_of_all_pos (l : List (String × Int))
    (hl : ∀ pr ∈ l, 0 < pr.2) : ∀ k d, l.lookup k = some d → 0 < d := by
  induction l with
  | nil => intro k d h; simp [List.lookup] at h
  | cons hd tl ih =>
    obtain ⟨a, b⟩ := hd
    intro k d h
    rw [List.lookup] at h
    split at h
    · injection h with h
      exact h ▸ hl (a, b) (by simp)
    · exact ih (fun pr hpr => hl pr (by simp [hpr])) k d h

theorem get_visit_duration_pos (place_types : List String) :
    0 < get_visit_duration place_types := by
  induction place_types with
  | nil => decide
  | cons t ts ih =>
    rw [get_visit_duration]
    cases hlk : DEFAULT_VISIT_DURATION_MINUTES.lookup (lowerStr t) with
    | none => exact ih
    | some d => exact lookup_pos_of_all_pos _ (by decide) _ _ hlk

theorem effective_duration_pos (p : Place) : 0 < effective_duration p := by
  unfold effective_duration
  cases p.duration_minutes with
  | none => exact get_visit_duration_pos _
  | some d =>
    by_cases hd : 0 < d
    · simp [hd]
    · simpa [hd] using get_visit_duration_pos _

theorem fitDuration_some {endT current dur0 dur : Int} (h0 : 0 < dur0)
    (h : fitDuration endT current dur0 = some dur) :
    0 < dur ∧ current + dur ≤ endT := by
  unfold fitDuration at h
  split at h
  · split at h
    · exact absurd h (by simp)
    · rw [Option.some.injEq] at h
      omega
  · rw [Option.some.injEq] at h
    omega

/-- The facts the schedule-builder loop maintains, bundled so that one
induction serves every claim about `generate_schedule`. -/
structure LoopFacts (endT current : Int) (r : List SchedItem × Int × Int) : Prop where
  mem_ok : ∀ it ∈ r.1, current ≤ it.start_min ∧ it.start_min < it.end_min ∧
    it.end_min ≤ endT ∧ it.start_min + it.duration_minutes = it.end_min
  ordered : List.Pairwise (fun a b => a.end_min ≤ b.start_min) r.1
  nil_fin : r.1 = [] → r.2.1 = current
  head_start : ∀ it, r.1.head? = some it → it.start_min = current
  fin_ge : current ≤ r.2.1
  fin_le : r.1 ≠ [] → r.2.1 ≤ endT
  last_fin : ∀ it, r.1.getLast? = some it →
    r.2.1 = it.end_min ∨ r.2.1 = it.start_min ∨
      ∃ t : Int, 0 ≤ t ∧ r.2.1 = it.end_min + t

theorem buildLoop_facts (travelOf distOf : Nat → Nat) (endT : Int) :
    ∀ (places : List Place) (i : Nat) (current : Int),
      LoopFacts endT current (buildLoop travelOf distOf endT places i current) := by
  intro places
  induction places with
  | nil =>
    intro i current
    refine ⟨?_, ?_, ?_, ?_, ?_, ?_, ?_⟩ <;> simp [buildLoop]
  | cons p rest ih =>
    intro i current
    rw [buildLoop]
    cases hfit : fitDuration endT current (effective_duration p) with
    | none =>
      refine ⟨?_, ?_, ?_, ?_, ?_, ?_, ?_⟩ <;> simp
    | some dur =>
      obtain ⟨hdpos, hdfit⟩ := fitDuration_some (effective_duration_pos p) hfit
      cases rest with
      | nil =>
        refine ⟨?_, ?_, ?_, ?_, ?_, ?_, ?_⟩ <;> simp <;> omega
      | cons q rest' =>
        by_cases hover : current + dur + (travelOf i : Int) > endT
        · simp only [hover, if_true]
          refine ⟨?_, ?_, ?_, ?_, ?_, ?_, ?_⟩ <;> simp <;> omega
        · simp only [hover, if_false]
          by_cases hreach : current + dur + (travelOf i : Int) ≥ endT
          · simp only [hreach, if_true]
            refine ⟨?_, ?_, ?_, ?_, ?_, ?_, ?_⟩
            · intro it hit
              simp at hit
              subst hit
              simp
              omega
            · simp
            · simp
            · intro it hit
              simp at hit
              subst hit
              simp
            · simp
              omega
            · intro _
              simp
              omega
            · intro it hit
              simp at hit
              subst hit
              right; right
              refine ⟨travelOf i, by positivity, by simp⟩
          · simp only [hreach, if_false]
            have IH := ih (i + 1) (current + dur + (travelOf i : Int))
            set r := buildLoop travelOf distOf endT (q :: rest') (i + 1)
              (current + dur + (travelOf i : Int)) with hr
            have htrav : (0 : Int) ≤ (travelOf i : Int) := by positivity
            refine ⟨?_, ?_, ?_, ?_, ?_, ?_, ?_⟩
            · intro it hit
              simp at hit
              rcases hit with h | h
              · simp [h]; omega
              · have := IH.mem_ok it h
                refine ⟨by omega, this.2.1, this.2.2.1, this.2.2.2⟩
            · refine List.Pairwise.cons ?_ IH.ordered
              intro b hb
              have := (IH.mem_ok b hb).1
              simp; omega
            · simp
            · intro it hit
              simp at hit
              simp [hit.symm]
            · have := IH.fin_ge
              simp only [hr] at *
              omega
            · intro _
              by_cases hnil : r.1 = []
              · have := IH.nil_fin hnil
                simp only [hr] at *
                omega
              · have := IH.fin_le hnil
                simpa using this
            · intro it hit
              rw [List.getLast?_cons] at hit
              by_cases hnil : r.1 = []
              · rw [hnil] at hit
                simp at hit
                have hfin := IH.nil_fin hnil
                subst hit
                right; right
                refine ⟨travelOf i, htrav, ?_⟩
                simp [hfin]
              · obtain ⟨x, hx⟩ : ∃ x, r.1.getLast? = some x := by
                  cases hgl : r.1.getLast? with
                  | none => exact absurd (List.getLast?_eq_none_iff.mp hgl) hnil
                  | some x => exact ⟨x, rfl⟩
                rw [hx] at hit
                simp at hit
                subst hit
                simpa using IH.last_fin x hx


/-- Time view of a schedule item: the fields `addDummySegment` leaves
untouched. -/
def itemTimes (it : SchedItem) : Option String × Int × Int × Int :=
  (it.place_id, it.start_min, it.end_min, it.duration_minutes)

theorem addDummySegment_times (l : List SchedItem) :
    (addDummySegment l).map itemTimes = l.map itemTimes := by
  induction l with
  | nil => rfl
  | cons it rest ih =>
    cases rest with
    | nil => cases h : it.travel_to_next <;> simp [addDummySegment, itemTimes, h]
    | cons b t =>
      rw [addDummySegment]
      simpa using ih

theorem mem_of_getLast?_eq (l : List SchedItem) (a : SchedItem)
    (h : l.getLast? = some a) : a ∈ l := by
  obtain ⟨hne, rfl⟩ := List.mem_getLast?_eq_getLast (show a ∈ l.getLast? from h)
  exact List.getLast_mem hne

/-- Between the raw loop output and the published items, every time-related
question can be transported along `addDummySegment_times`. -/
theorem addDummySegment_mem (l : List SchedItem) (it : SchedItem)
    (h : it ∈ addDummySegment l) : ∃ it0 ∈ l, itemTimes it0 = itemTimes it := by
  have : itemTimes it ∈ (addDummySegment l).map itemTimes := List.mem_map_of_mem _ h
  rw [addDummySegment_times] at this
  obtain ⟨it0, h0, he⟩ := List.mem_map.mp this
  exact ⟨it0, h0, he⟩

theorem addDummySegment_eq_nil_iff (l : List SchedItem) :
    addDummySegment l = [] ↔ l = [] := by
  constructor
  · intro h
    have := addDummySegment_times l
    rw [h] at this
    simpa using (List.map_eq_nil_iff.mp this.symm)
  · intro h; rw [h]; rfl

/-- **C1.** For every schedule produced by `generate_schedule`, the emitted
items are strictly time-ordered and non-overlapping — each item's start
instant is strictly before its end instant, and for `i < j` item `i`'s end
instant is at most item `j`'s start instant — and every item's end instant
(in particular the last one's) is at most the requested window end. -/
theorem C1_schedule_ordered (travelOf distOf : Nat → Nat) (places : List Place)
    (startT endT : Int) (ov : Option String) (s : Schedule)
    (hs : s = generate_schedule travelOf distOf places startT endT ov) :
    (∀ it ∈ s.items, it.start_min < it.end_min ∧ it.end_min ≤ endT) ∧
    (∀ i j : Nat, ∀ iti itj : SchedItem, i < j →
      s.items[i]? = some iti → s.items[j]? = some itj →
      iti.end_min ≤ itj.start_min) ∧
    (∀ itl, s.items.getLast? = some itl → itl.end_min ≤ endT) := by
  have F := buildLoop_facts travelOf distOf endT places 0 startT
  have hitems : s.items = addDummySegment
      (buildLoop travelOf distOf endT places 0 startT).1 := by
    rw [hs]; rfl
  have hmem : ∀ it ∈ s.items, it.start_min < it.end_min ∧ it.end_min ≤ endT := by
    intro it hit
    rw [hitems] at hit
    obtain ⟨it0, h0, he⟩ := addDummySegment_mem _ _ hit
    have hm := F.mem_ok it0 h0
    have h1 : it0.start_min = it.start_min := congrArg (fun x => x.2.1) he
    have h2 : it0.end_min = it.end_min := congrArg (fun x => x.2.2.1) he
    omega
  refine ⟨hmem, ?_, ?_⟩
  · have hpw : List.Pairwise (fun a b => a.end_min ≤ b.start_min) s.items := by
      have h0 := F.ordered
      have hmap := addDummySegment_times
        (buildLoop travelOf distOf endT places 0 startT).1
      rw [← hitems] at hmap
      have h1 : List.Pairwise (fun a b : Option String × Int × Int × Int =>
          a.2.2.1 ≤ b.2.1) (s.items.map itemTimes) := by
        rw [hmap, List.pairwise_map]
        exact h0
      rw [List.pairwise_map] at h1
      exact h1
    intro i j iti itj hij hi hj
    rw [List.getElem?_eq_some] at hi hj
    obtain ⟨hi', rfl⟩ := hi
    obtain ⟨hj', rfl⟩ := hj
    exact List.pairwise_iff_getElem.mp hpw i j hi' hj' hij
  · intro itl hl
    exact (hmem itl (mem_of_getLast?_eq _ _ hl)).2

/-- Concrete input for the C1 witness: a park and a cafe, window
09:00–19:00, ten-minute legs. -/
def c1Places : List Place :=
  [{ id := some "a", placeType := some "park" },
   { id := some "b", placeType := some "cafe" }]

/-- Witness for C1 at a concrete two-item schedule. -/
theorem C1_witness :
    ∃ it0 it1 : SchedItem,
      (generate_schedule (fun _ => 10) (fun _ => 800) c1Places 540 1140
        none).items[0]? = some it0 ∧
      (generate_schedule (fun _ => 10) (fun _ => 800) c1Places 540 1140
        none).items[1]? = some it1 ∧
      it0.end_min ≤ it1.start_min ∧ it0.start_min < it0.end_min ∧
      it1.end_min ≤ 1140 := by
  have H := C1_schedule_ordered (fun _ => 10) (fun _ => 800) c1Places 540 1140
    none _ rfl
  refine ⟨⟨some "a", none, 540, 600, 60, some ⟨10, 800⟩⟩,
    ⟨some "b", none, 610, 655, 45, some ⟨0, 0⟩⟩, by decide, by decide, ?_, ?_, ?_⟩
  · exact H.2.1 0 1 _ _ (by decide) (by decide) (by decide)
  · exact (H.1 _ (by decide)).1
  · exact (H.2.2 _ (by decide))

/-- **C2.** In the schedule-builder loop, when a place's visit duration
would push the projected end past the window end (`endT < current + dur0`):
with fewer than 15 minutes remaining the place is not added and the
schedule terminates there; otherwise the place is kept with its duration
shrunk to `remaining - 5` minutes, floored at 15. -/
theorem C2_shrink_or_drop (travelOf distOf : Nat → Nat) (endT : Int)
    (p : Place) (rest : List Place) (i : Nat) (current : Int)
    (hover : endT < current + effective_duration p) :
    (endT - current < 15 →
      buildLoop travelOf distOf endT (p :: rest) i current = ([], current, 0)) ∧
    (15 ≤ endT - current →
      ∃ it tl fin dist,
        buildLoop travelOf distOf endT (p :: rest) i current =
          (it :: tl, fin, dist) ∧
        it.place_id = p.id ∧ it.start_min = current ∧
        it.duration_minutes = max 15 (endT - current - 5)) := by
  constructor
  · intro h15
    have hfit : fitDuration endT current (effective_duration p) = none := by
      unfold fitDuration
      rw [if_pos (by omega), if_pos h15]
    rw [buildLoop, hfit]
  · intro h15
    have hfit : fitDuration endT current (effective_duration p) =
        some (max 15 (endT - current - 5)) := by
      unfold fitDuration
      rw [if_pos (by omega), if_neg (by omega)]
    rw [buildLoop, hfit]
    cases rest with
    | nil => exact ⟨_, _, _, _, rfl, rfl, rfl, rfl⟩
    | cons q rest' =>
      dsimp only
      split
      · exact ⟨_, _, _, _, rfl, rfl, rfl, rfl⟩
      · split
        · exact ⟨_, _, _, _, rfl, rfl, rfl, rfl⟩
        · exact ⟨_, _, _, _, rfl, rfl, rfl, rfl⟩

/-- Witness for C2, realising the spec's scenario: a place with a 90-minute
category default (`restaurant`) and 20 minutes remaining is kept with
duration 15. -/
theorem C2_witness :
    (20 : Int) - 0 < 15 ∨
    ∃ it tl fin dist,
      buildLoop (fun _ => 10) (fun _ => 0) 20
        [{ id := some "r", placeType := some "restaurant" }] 0 0 =
        (it :: tl, fin, dist) ∧
      it.place_id = some "r" ∧ it.start_min = 0 ∧
      it.duration_minutes = 15 := by
  right
  have H := (C2_shrink_or_drop (fun _ => 10) (fun _ => 0) 20
    { id := some "r", placeType := some "restaurant" } [] 0 0
    (by decide)).2 (by decide)
  obtain ⟨it, tl, fin, dist, heq, hid, hst, hdur⟩ := H
  exact ⟨it, tl, fin, dist, heq, hid, hst, by rw [hdur]; decide⟩

/-- Concrete input refuting C3's first clause: two places, window
09:00–10:00, a 50-minute first visit and a 20-minute leg.  Travel to the
second place would overrun the window, so the loop appends the first item
and stops without advancing `current_datetime`, leaving the reported total
at 0 although the single emitted item spans 50 minutes. -/
def c3Sched : Schedule :=
  generate_schedule (fun _ => 20) (fun _ => 1000)
    [{ id := some "a", duration_minutes := some 50 }, { id := some "b" }]
    540 600 none

/-- **C3, counterexample.** The reported `total_duration_minutes` (0) is not
the elapsed time from the first item's start (540) to the last item's end
(590). -/
theorem C3_counterexample :
    ¬ (∀ itF itL, c3Sched.items.head? = some itF →
        c3Sched.items.getLast? = some itL →
        c3Sched.total_duration_minutes = itL.end_min - itF.start_min) := by
  intro h
  have h2 := h ⟨some "a", none, 540, 590, 50, some ⟨0, 0⟩⟩
    ⟨some "a", none, 540, 590, 50, some ⟨0, 0⟩⟩ (by decide) (by decide)
  norm_num at h2
  exact absurd h2 (by decide)

/-- **C3, amended.** For every non-empty schedule built by
`generate_schedule`, the reported total is the final current-instant minus
the window start, is nonnegative, and never exceeds the window span (so the
overflow clamp of lines 238–241 never has to fire); the first item starts at
the window start; and the total equals the elapsed time from the first
item's start to the last item's end **except** under travel-induced
truncation, where it reflects the last item's start, or an exact end-of-window
stop, where it additionally counts the final attached travel leg. -/
theorem C3_total_duration_amended (travelOf distOf : Nat → Nat)
    (places : List Place) (startT endT : Int) (ov : Option String)
    (s : Schedule) (hs : s = generate_schedule travelOf distOf places startT endT ov)
    (hne : s.items ≠ []) :
    0 ≤ s.total_duration_minutes ∧
    s.total_duration_minutes ≤ endT - startT ∧
    (∀ itF, s.items.head? = some itF → itF.start_min = startT) ∧
    (∀ itF itL, s.items.head? = some itF → s.items.getLast? = some itL →
      s.total_duration_minutes = itL.end_min - itF.start_min ∨
      s.total_duration_minutes = itL.start_min - itF.start_min ∨
      ∃ t : Int, 0 ≤ t ∧
        s.total_duration_minutes = itL.end_min + t - itF.start_min) := by
  have F := buildLoop_facts travelOf distOf endT places 0 startT
  set r := buildLoop travelOf distOf endT places 0 startT with hr
  have hitems : s.items = addDummySegment r.1 := by rw [hs]; rfl
  have hne0 : r.1 ≠ [] := by
    intro h0
    exact hne (by rw [hitems, h0]; rfl)
  have hfin_le : r.2.1 ≤ endT := F.fin_le hne0
  have htot : s.total_duration_minutes = r.2.1 - startT := by
    rw [hs]
    show (if r.1 = [] then (0:Int)
      else if r.2.1 > endT then endT - startT
      else calculate_total_duration startT r.2.1) = r.2.1 - startT
    rw [if_neg hne0, if_neg (by omega)]
    rfl
  have hge := F.fin_ge
  have hmap := addDummySegment_times r.1
  rw [← hitems] at hmap
  refine ⟨by omega, by omega, ?_, ?_⟩
  · intro itF hF
    have h1 : s.items.head?.map itemTimes = r.1.head?.map itemTimes := by
      rw [← List.head?_map, ← List.head?_map, hmap]
    rw [hF] at h1
    cases hF0 : r.1.head? with
    | none =>
      rw [hF0] at h1
      simp at h1
    | some itF0 =>
      rw [hF0] at h1
      simp at h1
      have := F.head_start itF0 hF0
      have hst : itF0.start_min = itF.start_min := congrArg (fun x => x.2.1) h1.symm
      omega
  · intro itF itL hF hL
    have h1 : s.items.head?.map itemTimes = r.1.head?.map itemTimes := by
      rw [← List.head?_map, ← List.head?_map, hmap]
    have h2 : s.items.getLast?.map itemTimes = r.1.getLast?.map itemTimes := by
      rw [← List.getLast?_map, ← List.getLast?_map, hmap]
    rw [hF] at h1
    rw [hL] at h2
    cases hF0 : r.1.head? with
    | none => rw [hF0] at h1; simp at h1
    | some itF0 =>
      cases hL0 : r.1.getLast? with
      | none => rw [hL0] at h2; simp at h2
      | some itL0 =>
        rw [hF0] at h1
        rw [hL0] at h2
        simp at h1 h2
        have hFst : itF0.start_min = itF.start_min := congrArg (fun x => x.2.1) h1.symm
        have hLst : itL0.start_min = itL.start_min := congrArg (fun x => x.2.1) h2.symm
        have hLen : itL0.end_min = itL.end_min := congrArg (fun x => x.2.2.1) h2.symm
        have hstart := F.head_start itF0 hF0
        rcases F.last_fin itL0 hL0 with hc | hc | ⟨t, ht, hc⟩
        · left; omega
        · right; left; omega
        · right; right; exact ⟨t, ht, by omega⟩

/-- Witness for C3 (amended) at a concrete three-place schedule. -/
theorem C3_witness :
    ∃ s : Schedule,
      s = generate_schedule (fun _ => 7) (fun _ => 500)
        [{ id := some "x", placeType := some "museum" },
         { id := some "y", placeType := some "bar" }] 600 1140 none ∧
      s.items ≠ [] ∧ 0 ≤ s.total_duration_minutes ∧
      s.total_duration_minutes ≤ 1140 - 600 := by
  refine ⟨_, rfl, ?_, ?_, ?_⟩
  · decide
  · exact (C3_total_duration_amended (fun _ => 7) (fun _ => 500)
      [{ id := some "x", placeType := some "museum" },
       { id := some "y", placeType := some "bar" }] 600 1140 none _ rfl
      (by decide)).1
  · exact (C3_total_duration_amended (fun _ => 7) (fun _ => 500)
      [{ id := some "x", placeType := some "museum" },
       { id := some "y", placeType := some "bar" }] 600 1140 none _ rfl
      (by decide)).2.1

/-- **C8.** For every fixed travel mode, the fallback travel-time estimate
`estimate_travel_time` is non-decreasing in the input distance, and is
bounded below by 5 minutes for walking and by 3 minutes for every other
mode. -/
theorem C8_estimate_monotone_and_floored :
    (∀ (mode : TravelMode) (d1 d2 : ℚ), d1 ≤ d2 →
      estimate_travel_time d1 mode ≤ estimate_travel_time d2 mode) ∧
    (∀ d : ℚ, 5 ≤ estimate_travel_time d TravelMode.walking) ∧
    (∀ (mode : TravelMode) (d : ℚ), mode ≠ TravelMode.walking →
      3 ≤ estimate_travel_time d mode) := by
  have hspeed : ∀ mode : TravelMode, (0 : ℚ) < travelSpeedKmPerHour mode := by
    intro mode; cases mode <;> norm_num [travelSpeedKmPerHour]
  refine ⟨?_, ?_, ?_⟩
  · intro mode d1 d2 hd
    unfold estimate_travel_time
    refine max_le_max le_rfl ?_
    apply Int.ceil_le_ceil
    have := hspeed mode
    gcongr
  · intro d
    unfold estimate_travel_time
    simp
  · intro mode d hmode
    unfold estimate_travel_time
    simp [hmode]

/-- Witness for C8 at concrete distances and modes. -/
theorem C8_witness :
    estimate_travel_time 1 TravelMode.driving ≤
      estimate_travel_time 2 TravelMode.driving ∧
    5 ≤ estimate_travel_time (1/10) TravelMode.walking ∧
    3 ≤ estimate_travel_time (1/10) TravelMode.transit := by
  refine ⟨?_, ?_, ?_⟩
  · exact C8_estimate_monotone_and_floored.1 TravelMode.driving 1 2 (by norm_num)
  · exact C8_estimate_monotone_and_floored.2.1 (1/10)
  · exact C8_estimate_monotone_and_floored.2.2 TravelMode.transit (1/10) (by decide)

/-! ### `ai_service.py` — preference-based selection -/

/-- The bucket table (`category_mapping` at lines 174–182 of
`ai_service.py`). -/
def category_mapping : List (String × List String) :=
  [("restaurants", ["catering.restaurant", "catering.fast_food"]),
   ("cafes", ["catering.cafe"]),
   ("museums", ["tourism.museum", "tourism.attraction"]),
   ("parks", ["leisure.park"]),
   ("shopping", ["shop"]),
   ("bars", ["catering.bar"]),
   ("attractions", ["tourism.attraction", "tourism.museum"])]

/-- The bucket a place falls into: the first `category_mapping` entry whose
raw-category list contains the place's `category` key (`"unknown"` when
absent), `none` for the uncategorised pool (lines 237–248). -/
def categorize (p : Place) : Option String :=
  (category_mapping.find? (fun e => e.2.contains (p.category.getD "unknown"))).map
    (fun e => e.1)

/-- `UserPreferences` as read at lines 168–171 (`preferences.get(...)` with
the defaults used there). -/
structure Prefs where
  must_include : List String := []
  max_places : Int := 12
  balance_mode : String := "balanced"
  meal_requirements : Bool := false
deriving DecidableEq, Repr

/-- `all_categories` at line 211. -/
def all_categories : List String :=
  ["restaurants", "cafes", "museums", "parks", "shopping", "bars"]

/-- Insertion-order-preserving dict update (Python dict assignment). -/
def upsert (l : List (String × Nat)) (k : String) (v : Nat) :
    List (String × Nat) :=
  if l.any (fun e => e.1 == k) then
    l.map (fun e => if e.1 == k then (k, v) else e)
  else l ++ [(k, v)]

/-- The per-bucket quota from `balance_mode` (lines 195–203). -/
def bucketLimit (balance cat : String) : Nat :=
  if balance = "focused" then (if cat = "restaurants" ∨ cat = "cafes" then 6 else 4)
  else if balance = "balanced" then (if cat = "restaurants" ∨ cat = "cafes" then 4 else 3)
  else 3

/-- `category_limits` (lines 190–224): per-bucket quotas from the
(meal-adjusted) must-include list and balance mode, the minimum-2-restaurants
fix, and default slots for the remaining buckets; an assoc list in dict
insertion order. -/
def category_limits (must_include' : List String) (balance : String)
    (meal : Bool) : List (String × Nat) :=
  if must_include' ≠ [] then
    let base := must_include'.foldl
      (fun acc cat => upsert acc cat (bucketLimit balance cat)) []
    let base2 := if meal ∧ (base.lookup "restaurants").getD 0 < 2 then
        upsert base "restaurants" 2
      else base
    all_categories.foldl
      (fun acc cat =>
        if acc.any (fun e => e.1 == cat) then acc
        else acc ++ [(cat, if balance ≠ "focused" then 1 else 0)]) base2
  else
    [("restaurants", 3), ("cafes", 3), ("museums", 2), ("parks", 2),
     ("shopping", 1), ("bars", 1)]

/-- `category_counts[category] += 1`. -/
def bumpCount (counts : List (String × Nat)) (cat : String) :
    List (String × Nat) :=
  counts.map (fun e => if e.1 == cat then (e.1, e.2 + 1) else e)

/-- Phase-1 state: `selected_places`, `selected_place_ids`,
`category_counts`. -/
def SelSt : Type := List Place × List (Option String) × List (String × Nat)

/-- One phase-1 category iteration (lines 258–286).  `simple_vector_score`
returns its input unchanged (`SENTENCE_TRANSFORMERS_AVAILABLE` is hardcoded
`False` at line 15), so both query branches reduce to
`available_places[:limit]`. -/
def selectFromCategory (bucket : List Place) (limit : Nat) (cat : String)
    (st : SelSt) : SelSt :=
  let available := bucket.filter (fun p => !st.2.1.contains p.id)
  let chosen := available.take limit
  chosen.foldl
    (fun st p =>
      if st.2.1.contains p.id then st
      else (st.1 ++ [p], st.2.1 ++ [p.id], bumpCount st.2.2 cat))
    st

/-- Phase 1 (lines 250–286): fill the categories to process, in order,
starting from the empty selection with zeroed counts. -/
def phase1 (buckets : String → List Place) (limits : List (String × Nat))
    (ctp : List String) : SelSt :=
  ctp.foldl
    (fun st cat => selectFromCategory (buckets cat) ((limits.lookup cat).getD 0)
      cat st)
    ([], [], limits.map (fun e => (e.1, 0)))

/-- Phase 2 (lines 288–311): top up buckets still under quota while slots
remain, iterating the limits dict in insertion order.  State additionally
carries `remaining_slots` (an `Int`: it may start nonpositive). -/
def phase2 (buckets : String → List Place) (limits : List (String × Nat))
    (st0 : SelSt) (remaining0 : Int) : SelSt × Int :=
  limits.foldl
    (fun st e =>
      if st.2 ≤ 0 then st
      else
        let current := (st.1.2.2.lookup e.1).getD 0
        if current < e.2 then
          let available := (buckets e.1).filter (fun p => !st.1.2.1.contains p.id)
          let needed := min ((e.2 : Int) - current) st.2
          let additional := available.take needed.toNat
          additional.foldl
            (fun st p =>
              if !st.1.2.1.contains p.id ∧ st.2 > 0 then
                ((st.1.1 ++ [p], st.1.2.1 ++ [p.id], bumpCount st.1.2.2 e.1),
                  st.2 - 1)
              else st)
            st
        else st)
    (st0, remaining0)

/-- `preference_based_selection` (lines 157–328): the deterministic
preference-based selector.  The surrounding `try/except` cannot fire in this
pure model; `query` only feeds the identity vector scorer, so it does not
influence the result. -/
def preference_based_selection (places : List Place) (prefs : Prefs)
    (_query : String) : List Place :=
  if places = [] then places
  else
    let must_include :=
      if prefs.meal_requirements ∧ ¬ prefs.must_include.contains "restaurants"
      then prefs.must_include ++ ["restaurants"]
      else prefs.must_include
    let limits := category_limits must_include prefs.balance_mode
      prefs.meal_requirements
    let buckets := fun cat =>
      places.filter (fun p => categorize p == some cat)
    let ctp0 := if must_include ≠ [] then must_include
      else limits.map (fun e => e.1)
    let ctp := if prefs.meal_requirements ∧ ctp0.contains "restaurants"
      then "restaurants" :: ctp0.erase "restaurants"
      else ctp0
    let st1 := phase1 buckets limits ctp
    let remaining := prefs.max_places - (st1.1.length : Int)
    (phase2 buckets limits st1 remaining).1.1

/-! ### `ai_service.py` — AI-assisted ordering (`ai_optimization`) -/

/-- A JSON index as the response parser sees it: an integer or a string
place id (lines 683–691 handle both). -/
inductive JsonIdx where
  | int (i : Int)
  | str (s : String)
deriving DecidableEq, Repr

/-- The parsed fields of the collaborator's JSON response (lines 637–647).
`none` models a missing or non-list field. -/
structure AiResponse where
  selected_place_indices : Option (List JsonIdx) := none
  ordered_indices : Option (List JsonIdx) := none
  day_overview : Option String := none
  place_reviews : Option (List (String × String)) := none
  place_durations : List (String × Int) := []
deriving Repr

/-- Lines 639–642: a missing, non-list or empty `selected_place_indices`
becomes `None`. -/
def parseSelected (sel : Option (List JsonIdx)) : Option (List JsonIdx) :=
  match sel with
  | some l => if l = [] then none else some l
  | none => none

/-- The position assigned to key `x` by the Python dict comprehension
`{idx: i for i, idx in enumerate(l)}` — the last position where `x`
occurs. -/
def lastPosition (l : List Int) (x : Int) : Option Nat :=
  ((l.enum.reverse).find? (fun e => e.2 == x)).map (fun e => e.1)

/-- Substring test on character lists (Python's `pat in s`). -/
def hasSubstr : List Char → List Char → Bool
  | [], pat => pat.isEmpty
  | c :: t, pat => pat.isPrefixOf (c :: t) || hasSubstr t pat

/-- Python `pat in s` for strings. -/
def strHasSub (s pat : String) : Bool := hasSubstr s.data pat.data

/-- The category-keyed fallback review text (lines 716–725). -/
def defaultReview (pt : String) : String :=
  let low := lowerStr pt
  if strHasSub low "restaurant" || strHasSub low "food" then
    "Recommended dining spot for this itinerary."
  else if strHasSub low "museum" then
    "Fascinating cultural experience worth visiting."
  else if strHasSub low "park" || strHasSub low "garden" then
    "Beautiful outdoor space perfect for relaxation."
  else "Interesting stop that adds value to your day."

/-- Last-binding lookup: the value a Python dict built left-to-right from an
entry list associates with `k`. -/
def lookupLast (l : List (String × String)) (k : String) : Option String :=
  (l.reverse.find? (fun e => e.1 == k)).map (fun e => e.2)

/-- Last-binding lookup for the durations map. -/
def lookupLastInt (l : List (String × Int)) (k : String) : Option Int :=
  (l.reverse.find? (fun e => e.1 == k)).map (fun e => e.2)

/-- Lines 701–726: attach the AI review found under the place's id, or — when
the response carried no review list — a synthesized category default. -/
def attachReviews (reviews : Option (List (String × String)))
    (l : List Place) : List Place :=
  match reviews with
  | some rs => l.map (fun p =>
      match p.id with
      | some pid =>
        match lookupLast rs pid with
        | some rv => { p with ai_review := some rv }
        | none => p
      | none => p)
  | none => l.map (fun p =>
      { p with ai_review := some (defaultReview (p.placeType.getD "place")) })

/-- Lines 728–733: attach a positive integer AI-suggested duration found
under the place's id. -/
def attachDurations (durs : List (String × Int)) (l : List Place) :
    List Place :=
  l.map (fun p =>
    match p.id with
    | some pid =>
      match lookupLastInt durs pid with
      | some d => if 0 < d then { p with duration_minutes := some d } else p
      | none => p
    | none => p)

/-- The `isinstance(idx, int) and 0 <= idx < len(places)` filter applied to
`selected_place_indices` entries (line 655). -/
def selectedFilterFn (places : List Place) (r : JsonIdx) : Option Int :=
  match r with
  | .int i => if 0 ≤ i ∧ i < (places.length : Int) then some i else none
  | .str _ => none

/-- The `isinstance(idx, int) and idx in original_to_filtered` mapping of
`ordered_indices` entries through the original→filtered dict (lines
667–670). -/
def orderedPosFn (vs : List Int) (r : JsonIdx) : Option Nat :=
  match r with
  | .int i => lastPosition vs i
  | .str _ => none

/-- One step of the `valid_indices` accumulation of the plain reordering
path (lines 682–691): in-range integer indices are kept, string ids are
resolved by lookup, everything else is dropped. -/
def validIndexFold (places : List Place) (acc : List Nat) (r : JsonIdx) :
    List Nat :=
  match r with
  | .int i =>
    if 0 ≤ i ∧ i < (places.length : Int) then acc ++ [i.toNat] else acc
  | .str s =>
    match places.findIdx? (fun p => p.id == some s) with
    | some j => acc ++ [j]
    | none => acc

/-- The ordering decision of `ai_optimization` (lines 652–699): subset
filtering via `selected_place_indices` with the original→filtered index
dict and `range` fallbacks, or the plain reordering path with missing
indices appended. -/
def orderingFromResponse (places : List Place)
    (selected : Option (List JsonIdx)) (ordered : List JsonIdx) :
    List Place :=
  match parseSelected selected with
  | some sel =>
    let valid_selected0 := sel.filterMap (selectedFilterFn places)
    let valid_selected := if valid_selected0 = [] then
        (List.range places.length).map (fun n : Nat => (n : Int))
      else valid_selected0
    let filtered_places := valid_selected.filterMap
      (fun i => places.get? i.toNat)
    let filtered_ordered0 := ordered.filterMap (orderedPosFn valid_selected)
    let filtered_ordered := if filtered_ordered0 = [] then
        List.range filtered_places.length
      else filtered_ordered0
    filtered_ordered.filterMap (fun j => filtered_places.get? j)
  | none =>
    let valid0 := ordered.foldl (validIndexFold places) []
    let valid := if valid0.length ≠ places.length then
        valid0 ++ ((List.range places.length).filter
          (fun j => !valid0.contains j))
      else valid0
    valid.filterMap (fun j => places.get? j)

/-- The response-parsing core of `ai_optimization` (lines 634–735): the
ordering decision followed by review/duration enrichment; a missing or
empty `ordered_indices` raises the `ValueError` that line 737 turns into
the unchanged input. -/
def ai_optimization_parse (places : List Place) (resp : AiResponse) :
    List Place × Option String :=
  match resp.ordered_indices with
  | none => (places, none)
  | some ordered =>
    if ordered = [] then (places, none)
    else
      (attachDurations resp.place_durations
        (attachReviews resp.place_reviews
          (orderingFromResponse places resp.selected_place_indices ordered)),
       resp.day_overview)

/-- `ai_optimization` (lines 542–746): a `none` response stands for every
failure mode before parsing — missing API keys, HTTP errors, non-JSON
content — all of which return the input order with no overview; the
`ValueError` raised for a missing/empty `ordered_indices` is caught at line
737 with the same result, which `ai_optimization_parse` reproduces. -/
def ai_optimization (places : List Place) (resp : Option AiResponse) :
    List Place × Option String :=
  match resp with
  | none => (places, none)
  | some r => ai_optimization_parse places r

/-! ### Uniqueness of selector outputs -/

theorem foldl_preserve {α σ : Type _} (P : σ → Prop) (f : σ → α → σ)
    (l : List α) (s : σ) (hstep : ∀ s a, P s → P (f s a)) (h0 : P s) :
    P (l.foldl f s) := by
  induction l generalizing s with
  | nil => exact h0
  | cons a t ih => exact ih _ (hstep s a h0)

/-- The invariant behind duplicate prevention: the id set tracks exactly the
ids of the selected places and stays duplicate-free. -/
def SelInv (st : SelSt) : Prop :=
  st.2.1 = st.1.map Place.id ∧ st.2.1.Nodup

theorem selectFromCategory_inv (bucket : List Place) (limit : Nat)
    (cat : String) (st : SelSt) (h : SelInv st) :
    SelInv (selectFromCategory bucket limit cat st) := by
  unfold selectFromCategory
  refine foldl_preserve SelInv _ _ _ ?_ h
  intro s p hs
  split
  · exact hs
  · rename_i hc
    obtain ⟨hids, hnd⟩ := hs
    have hpm : p.id ∉ s.2.1 := by simpa using hc
    constructor
    · simp [hids]
    · rw [List.nodup_append]
      exact ⟨hnd, List.nodup_singleton _,
        by simpa [List.disjoint_singleton] using hpm⟩

theorem phase2_inv (buckets : String → List Place)
    (limits : List (String × Nat)) (st0 : SelSt) (rem : Int)
    (h : SelInv st0) : SelInv (phase2 buckets limits st0 rem).1 := by
  unfold phase2
  refine foldl_preserve (fun s : SelSt × Int => SelInv s.1) _ limits (st0, rem)
    ?_ h
  intro s e hs
  split
  · exact hs
  · dsimp only
    split
    · refine foldl_preserve (fun s : SelSt × Int => SelInv s.1) _ _ _ ?_ hs
      intro s' p hs'
      split
      · rename_i hc
        obtain ⟨hids, hnd⟩ := hs'
        have hpm : p.id ∉ s'.1.2.1 := by
          have := hc.1
          simp at this
          exact this
        constructor
        · simp [hids]
        · rw [List.nodup_append]
          exact ⟨hnd, List.nodup_singleton _,
            by simpa [List.disjoint_singleton] using hpm⟩
      · exact hs'
    · exact hs

theorem pipeline_nodup (buckets : String → List Place)
    (limits : List (String × Nat)) (ctp : List String) (rem : Int) :
    ((phase2 buckets limits (phase1 buckets limits ctp) rem).1.1.map
      Place.id).Nodup := by
  have h1 : SelInv (phase1 buckets limits ctp) := by
    unfold phase1
    refine foldl_preserve SelInv _ _ _ ?_ ⟨rfl, List.nodup_nil⟩
    intro s cat hs
    exact selectFromCategory_inv _ _ _ _ hs
  obtain ⟨hids, hnd⟩ := phase2_inv buckets limits _ rem h1
  rw [← hids]
  exact hnd

/-- Output ids of the deterministic preference-based selector are always
duplicate-free, by the `selected_place_ids` guard. -/
theorem pref_selection_ids_nodup (places : List Place) (prefs : Prefs)
    (q : String) :
    ((preference_based_selection places prefs q).map Place.id).Nodup := by
  unfold preference_based_selection
  by_cases hp : places = []
  · simp [hp]
  · rw [if_neg hp]
    exact pipeline_nodup _ _ _ _

theorem nodup_filterMap_get {α : Type _} (idxs : List Nat) (l : List α)
    (hidx : idxs.Nodup) (hl : l.Nodup) :
    (idxs.filterMap (fun j => l.get? j)).Nodup := by
  refine List.Nodup.filterMap ?_ hidx
  intro a b c hca hcb
  have ha : l.get? a = some c := hca
  have hb : l.get? b = some c := hcb
  rw [List.get?_eq_getElem?, List.getElem?_eq_some] at ha hb
  obtain ⟨ha', rfl⟩ := ha
  obtain ⟨hb', hbe⟩ := hb
  exact ((List.Nodup.getElem_inj_iff hl).mp hbe).symm

/-- Selecting places by a duplicate-free index list from a pool with
duplicate-free ids yields duplicate-free ids. -/
theorem ids_nodup_select (places : List Place) (idxs : List Nat)
    (hidx : idxs.Nodup) (hids : (places.map Place.id).Nodup) :
    ((idxs.filterMap (fun j => places.get? j)).map Place.id).Nodup := by
  have he : (idxs.filterMap (fun j => places.get? j)).map Place.id
      = idxs.filterMap (fun j => (places.map Place.id).get? j) := by
    rw [List.map_filterMap]
    congr 1
    funext j
    rw [List.get?_eq_getElem?, List.get?_eq_getElem?, List.getElem?_map]
  rw [he]
  exact nodup_filterMap_get _ _ hidx hids

theorem foldl_append_if (n : Nat) (li : List Int) : ∀ acc : List Nat,
    li.foldl (fun acc i => if 0 ≤ i ∧ i < (n : Int) then acc ++ [i.toNat]
      else acc) acc
    = acc ++ (li.filter (fun i => decide (0 ≤ i ∧ i < (n : Int)))).map
        Int.toNat := by
  induction li with
  | nil => intro acc; simp
  | cons a t ih =>
    intro acc
    by_cases h : 0 ≤ a ∧ a < (n : Int)
    · simp only [List.foldl_cons, if_pos h, List.filter_cons,
        decide_eq_true h, ih]
      simp
    · simp only [List.foldl_cons, if_neg h, List.filter_cons]
      rw [ih]
      simp [h]

theorem filter_int_range_nodup (n : Nat) (li : List Int) (hnd : li.Nodup) :
    ((li.filter (fun i => decide (0 ≤ i ∧ i < (n : Int)))).map
      Int.toNat).Nodup := by
  refine List.Nodup.map_on ?_ (List.Nodup.filter _ hnd)
  intro x hx y hy hxy
  have hx' := (List.mem_filter.mp hx).2
  have hy' := (List.mem_filter.mp hy).2
  simp at hx' hy'
  omega

theorem lastPosition_spec (vs : List Int) (x : Int) (p : Nat)
    (h : lastPosition vs x = some p) : vs.get? p = some x := by
  unfold lastPosition at h
  cases hf : (vs.enum.reverse).find? (fun e => e.2 == x) with
  | none => rw [hf] at h; simp at h
  | some e =>
    rw [hf] at h
    simp at h
    have hmem : e ∈ vs.enum.reverse := List.mem_of_find?_eq_some hf
    have hpred := List.find?_some hf
    rw [List.mem_reverse] at hmem
    have := List.mem_enum_iff_getElem?.mp (show (e.1, e.2) ∈ vs.enum from hmem)
    rw [← List.get?_eq_getElem?] at this
    rw [← h]
    rw [this]
    simpa using hpred

theorem attachReviews_map_id (rs : Option (List (String × String)))
    (l : List Place) :
    (attachReviews rs l).map Place.id = l.map Place.id := by
  cases rs with
  | none =>
    rw [attachReviews, List.map_map]
    apply List.map_congr_left
    intro p _
    rfl
  | some rv =>
    rw [attachReviews, List.map_map]
    apply List.map_congr_left
    intro p _
    show (match p.id with
      | some pid =>
        match lookupLast rv pid with
        | some r => { p with ai_review := some r }
        | none => p
      | none => p).id = p.id
    cases hpid : p.id with
    | none => simp [hpid]
    | some pid =>
      cases hlk : lookupLast rv pid <;> simp [hpid, hlk]

theorem attachDurations_map_id (durs : List (String × Int)) (l : List Place) :
    (attachDurations durs l).map Place.id = l.map Place.id := by
  rw [attachDurations, List.map_map]
  apply List.map_congr_left
  intro p _
  show (match p.id with
    | some pid =>
      match lookupLastInt durs pid with
      | some d => if 0 < d then { p with duration_minutes := some d } else p
      | none => p
    | none => p).id = p.id
  cases hpid : p.id with
  | none => simp [hpid]
  | some pid =>
    cases hlk : lookupLastInt durs pid with
    | none => simp [hpid, hlk]
    | some d => by_cases hd : 0 < d <;> simp [hpid, hlk, hd]

theorem validIndexFold_int (places : List Place) (lo : List Int) :
    ∀ acc : List Nat,
    (lo.map JsonIdx.int).foldl (validIndexFold places) acc
    = acc ++ (lo.filter (fun i =>
        decide (0 ≤ i ∧ i < (places.length : Int)))).map Int.toNat := by
  induction lo with
  | nil => intro acc; simp
  | cons a t ih =>
    intro acc
    by_cases h : 0 ≤ a ∧ a < (places.length : Int) <;>
      simp [validIndexFold, h, ih, List.filter_cons]

theorem selectedFilterFn_map_int (places : List Place) (ls : List Int) :
    (ls.map JsonIdx.int).filterMap (selectedFilterFn places)
    = ls.filter (fun i => decide (0 ≤ i ∧ i < (places.length : Int))) := by
  induction ls with
  | nil => rfl
  | cons a t ih =>
    by_cases h : 0 ≤ a ∧ a < (places.length : Int) <;>
      simp [selectedFilterFn, List.filterMap_cons, h, ih]

theorem orderedPosFn_map_int (vs : List Int) (lo : List Int) :
    (lo.map JsonIdx.int).filterMap (orderedPosFn vs)
    = lo.filterMap (lastPosition vs) := by
  induction lo with
  | nil => rfl
  | cons a t ih =>
    cases hl : lastPosition vs a <;>
      simp [orderedPosFn, List.filterMap_cons, hl, ih]

theorem filterMap_lastPosition_nodup (vs li : List Int) (h : li.Nodup) :
    (li.filterMap (fun i => lastPosition vs i)).Nodup := by
  refine List.Nodup.filterMap ?_ h
  intro a b c hca hcb
  have ha := lastPosition_spec vs a c hca
  have hb := lastPosition_spec vs b c hcb
  rw [ha] at hb
  exact Option.some.inj hb

theorem map_toNat_nodup (vs : List Int) (hnd : vs.Nodup)
    (hpos : ∀ x ∈ vs, 0 ≤ x) : (vs.map Int.toNat).Nodup := by
  refine List.Nodup.map_on ?_ hnd
  intro x hx y hy hxy
  have := hpos x hx
  have := hpos y hy
  omega

theorem filterMap_comp_toNat (vs : List Int) (places : List Place) :
    vs.filterMap (fun i => places.get? i.toNat)
    = (vs.map Int.toNat).filterMap (fun j => places.get? j) := by
  rw [List.filterMap_map]
  rfl

/-- The ordering decision preserves id-uniqueness whenever the pool ids are
unique and the response indices are duplicate-free integer lists. -/
theorem orderingFromResponse_nodup (places : List Place)
    (selected : Option (List JsonIdx)) (lo : List Int)
    (hplaces : (places.map Place.id).Nodup) (hlo : lo.Nodup)
    (hsel : ∀ sel, selected = some sel →
      ∃ ls : List Int, sel = ls.map JsonIdx.int ∧ ls.Nodup) :
    ((orderingFromResponse places selected
      (lo.map JsonIdx.int)).map Place.id).Nodup := by
  rw [orderingFromResponse]
  cases hps : parseSelected selected with
  | none =>
    dsimp only
    rw [validIndexFold_int places lo [], List.nil_append]
    set A := (lo.filter (fun i =>
      decide (0 ≤ i ∧ i < (places.length : Int)))).map Int.toNat with hAdef
    have hA : A.Nodup := by
      rw [hAdef]
      exact filter_int_range_nodup places.length lo hlo
    split
    · refine ids_nodup_select _ _ ?_ hplaces
      rw [List.nodup_append]
      refine ⟨hA, List.Nodup.filter _ (List.nodup_range _), ?_⟩
      intro x hxA hxF
      have h2 := (List.mem_filter.mp hxF).2
      simp at h2
      exact h2 hxA
    · exact ids_nodup_select _ _ hA hplaces
  | some sel =>
    obtain ⟨ls, rfl, hls⟩ : ∃ ls : List Int,
        sel = ls.map JsonIdx.int ∧ ls.Nodup := by
      unfold parseSelected at hps
      cases selected with
      | none => simp at hps
      | some l =>
        by_cases hl : l = []
        · simp [hl] at hps
        · simp [hl] at hps
          subst hps
          exact hsel l rfl
    dsimp only
    rw [selectedFilterFn_map_int places ls]
    set B := ls.filter (fun i =>
      decide (0 ≤ i ∧ i < (places.length : Int))) with hBdef
    set vs := if B = [] then (List.range places.length).map
        (fun n : Nat => (n : Int)) else B with hvs
    have hvsnd : vs.Nodup := by
      rw [hvs]
      split
      · have hinj : Function.Injective (fun n : Nat => (n : Int)) :=
          fun a b h => by simpa using h
        exact List.Nodup.map hinj (List.nodup_range _)
      · rw [hBdef]
        exact List.Nodup.filter _ hls
    have hvsnn : ∀ x ∈ vs, 0 ≤ x := by
      intro x hx
      rw [hvs] at hx
      split at hx
      · obtain ⟨n, _, rfl⟩ := List.mem_map.mp hx
        exact Int.natCast_nonneg n
      · rw [hBdef] at hx
        have := (List.mem_filter.mp hx).2
        simp at this
        exact this.1
    rw [filterMap_comp_toNat]
    have hfp : (((vs.map Int.toNat).filterMap
        (fun j => places.get? j)).map Place.id).Nodup :=
      ids_nodup_select _ _ (map_toNat_nodup vs hvsnd hvsnn) hplaces
    rw [orderedPosFn_map_int]
    have hC : (lo.filterMap (lastPosition vs)).Nodup :=
      filterMap_lastPosition_nodup vs lo hlo
    split
    · exact ids_nodup_select _ _ (List.nodup_range _) hfp
    · exact ids_nodup_select _ _ hC hfp

/-- **C4, amended.** Place ids are unique in every output of the
preference-based deterministic selection; on the AI-assisted ordering path
they are unique provided the input ids are unique and the collaborator's
index lists are duplicate-free integer lists (with a repeated index the
same place can be emitted twice). -/
theorem C4_unique_ids_amended :
    (∀ (places : List Place) (prefs : Prefs) (q : String),
      ((preference_based_selection places prefs q).map Place.id).Nodup) ∧
    (∀ (places : List Place) (resp : AiResponse),
      (places.map Place.id).Nodup →
      (∀ sel, resp.selected_place_indices = some sel →
        ∃ ls : List Int, sel = ls.map JsonIdx.int ∧ ls.Nodup) →
      (∀ ord, resp.ordered_indices = some ord →
        ∃ lo : List Int, ord = lo.map JsonIdx.int ∧ lo.Nodup) →
      ((ai_optimization places (some resp)).1.map Place.id).Nodup) := by
  refine ⟨pref_selection_ids_nodup, ?_⟩
  intro places resp hplaces hsel hord
  obtain ⟨selF, ordF, ovF, rvF, durF⟩ := resp
  cases ordF with
  | none =>
    simpa [ai_optimization, ai_optimization_parse] using hplaces
  | some ordered =>
    obtain ⟨lo, rfl, hlo⟩ := hord ordered rfl
    by_cases hemp : lo.map JsonIdx.int = ([] : List JsonIdx)
    · simpa [ai_optimization, ai_optimization_parse, hemp] using hplaces
    · show ((ai_optimization_parse places
        ⟨selF, some (lo.map JsonIdx.int), ovF, rvF, durF⟩).1.map
          Place.id).Nodup
      rw [ai_optimization_parse]
      simp only [if_neg hemp]
      rw [attachDurations_map_id, attachReviews_map_id]
      refine orderingFromResponse_nodup places selF lo hplaces hlo ?_
      intro sel hs
      exact hsel sel hs

/-- Concrete input refuting C4: three distinct places and a collaborator
response whose `ordered_indices` repeats index 0. -/
def c4Places : List Place :=
  [{ id := some "a" }, { id := some "b" }, { id := some "c" }]

/-- The repeated-index response for the C4 counterexample. -/
def c4Resp : AiResponse :=
  { ordered_indices := some [JsonIdx.int 0, JsonIdx.int 0, JsonIdx.int 1] }

/-- **C4, counterexample.** With a duplicated index from the collaborator
the AI path emits the same place twice, so the claim that every selector
output has unique place ids is false. -/
theorem C4_counterexample :
    ¬ ((ai_optimization c4Places (some c4Resp)).1.map Place.id).Nodup := by
  decide

/-- Witness input for the C4 amended theorem. -/
def c4wPlaces : List Place := [{ id := some "x" }, { id := some "y" }]

/-- Witness response for the C4 amended theorem: a duplicate-free integer
ordering. -/
def c4wResp : AiResponse :=
  { ordered_indices := some [JsonIdx.int 1, JsonIdx.int 0] }

/-- Witness for C4 (amended) at concrete inputs. -/
theorem C4_witness :
    ((preference_based_selection c4wPlaces
      { must_include := [], max_places := 12, balance_mode := "balanced",
        meal_requirements := false } "").map Place.id).Nodup ∧
    ((ai_optimization c4wPlaces (some c4wResp)).1.map Place.id).Nodup := by
  constructor
  · exact C4_unique_ids_amended.1 c4wPlaces _ ""
  · refine C4_unique_ids_amended.2 c4wPlaces c4wResp (by decide) ?_ ?_
    · intro sel h
      simp [c4wResp] at h
    · intro ord h
      refine ⟨[1, 0], ?_, by decide⟩
      have h2 : [JsonIdx.int 1, JsonIdx.int 0] = ord := by
        simpa [c4wResp] using h
      rw [← h2]
      rfl

/-! ### C5 — meal requirements guarantee two restaurants -/

theorem lookup_map_upsert (l : List (String × Nat)) (k : String) (v : Nat)
    (k' : String) (hne : k' ≠ k) :
    (l.map (fun e => if e.1 == k then (k, v) else e)).lookup k'
      = l.lookup k' := by
  induction l with
  | nil => rfl
  | cons e t ih =>
    obtain ⟨a, b⟩ := e
    by_cases hak : (a == k) = true
    · have ha : a = k := by simpa using hak
      subst ha
      rw [List.map_cons, if_pos hak]
      have hkk : (k' == a) = false := by simpa using hne
      simp only [List.lookup, hkk]
      exact ih
    · rw [List.map_cons, if_neg hak]
      cases hka : (k' == a) with
      | false =>
        simp only [List.lookup, hka]
        exact ih
      | true => simp [List.lookup, hka]

theorem lookup_map_upsert_self (l : List (String × Nat)) (k : String)
    (v : Nat) (h : l.any (fun e => e.1 == k)) :
    (l.map (fun e => if e.1 == k then (k, v) else e)).lookup k = some v := by
  induction l with
  | nil => simp at h
  | cons e t ih =>
    obtain ⟨a, b⟩ := e
    by_cases hak : (a == k) = true
    · rw [List.map_cons, if_pos hak]
      simp only [List.lookup, beq_self_eq_true]
    · have h' : t.any (fun e => e.1 == k) := by
        simp only [List.any_cons, Bool.or_eq_true] at h
        rcases h with h | h
        · exact absurd h hak
        · exact h
      rw [List.map_cons, if_neg hak]
      have hka : (k == a) = false := by
        simp only [beq_iff_eq] at hak ⊢
        simp only [beq_eq_false_iff_ne, ne_eq]
        intro hh
        exact hak hh.symm
      simp only [List.lookup, hka]
      exact ih h'

theorem lookup_append_of_some (acc rest : List (String × Nat)) (k : String)
    (v : Nat) (h : acc.lookup k = some v) :
    (acc ++ rest).lookup k = some v := by
  induction acc with
  | nil => simp [List.lookup] at h
  | cons e t ih =>
    obtain ⟨a, b⟩ := e
    rw [List.cons_append]
    cases hka : (k == a) with
    | true =>
      simp only [List.lookup, hka] at h ⊢
      exact h
    | false =>
      simp only [List.lookup, hka] at h ⊢
      exact ih h

theorem lookup_upsert_self (l : List (String × Nat)) (k : String) (v : Nat) :
    (upsert l k v).lookup k = some v := by
  unfold upsert
  split
  · exact lookup_map_upsert_self l k v (by assumption)
  · rename_i h
    induction l with
    | nil => simp [List.lookup]
    | cons e t ih =>
      obtain ⟨a, b⟩ := e
      simp only [List.any_cons, Bool.or_eq_true] at h
      push_neg at h
      have hka : (k == a) = false := by
        simp only [beq_eq_false_iff_ne, ne_eq]
        intro hh
        exact h.1 (by simp [hh])
      rw [List.cons_append]
      simp only [List.lookup, hka]
      exact ih h.2

theorem lookup_upsert_other (l : List (String × Nat)) (k : String) (v : Nat)
    (k' : String) (h : k' ≠ k) :
    (upsert l k v).lookup k' = l.lookup k' := by
  have hkk : (k' == k) = false := by simpa using h
  unfold upsert
  split
  · exact lookup_map_upsert l k v k' h
  · rename_i hany
    clear hany
    induction l with
    | nil => simp [List.lookup, hkk]
    | cons e t ih =>
      obtain ⟨a, b⟩ := e
      rw [List.cons_append]
      cases hka : (k' == a) with
      | false =>
        simp only [List.lookup, hka]
        exact ih
      | true => simp [List.lookup, hka]

theorem lookup_foldl_upsert_of_not_mem (f : String → Nat)
    (cats : List String) (k : String) (h : k ∉ cats) :
    ∀ acc, ((cats.foldl (fun a c => upsert a c (f c)) acc).lookup k)
      = acc.lookup k := by
  induction cats with
  | nil => intro acc; rfl
  | cons c t ih =>
    intro acc
    have hkc : k ≠ c := fun hh => h (by simp [hh])
    rw [List.foldl_cons, ih (fun hh => h (by simp [hh])),
      lookup_upsert_other _ _ _ _ hkc]

theorem lookup_foldl_upsert_mem (f : String → Nat) (cats : List String)
    (k : String) (h : k ∈ cats) :
    ∀ acc, ((cats.foldl (fun a c => upsert a c (f c)) acc).lookup k)
      = some (f k) := by
  induction cats with
  | nil => cases h
  | cons c t ih =>
    intro acc
    by_cases ht : k ∈ t
    · rw [List.foldl_cons]
      exact ih ht _
    · have hkc : k = c := by
        rcases List.mem_cons.mp h with h' | h'
        · exact h'
        · exact absurd h' ht
      subst hkc
      rw [List.foldl_cons, lookup_foldl_upsert_of_not_mem f t k ht,
        lookup_upsert_self]

theorem lookup_fold_append_keep (cats : List String) (w : Nat) (k : String)
    (v : Nat) :
    ∀ acc : List (String × Nat), acc.lookup k = some v →
    ((cats.foldl (fun a c =>
      if a.any (fun e => e.1 == c) then a else a ++ [(c, w)]) acc).lookup k)
      = some v := by
  induction cats with
  | nil => intro acc h; exact h
  | cons c t ih =>
    intro acc h
    rw [List.foldl_cons]
    split
    · exact ih acc h
    · exact ih _ (lookup_append_of_some acc [(c, w)] k v h)

theorem bucketLimit_ge (bal cat : String) : 3 ≤ bucketLimit bal cat := by
  unfold bucketLimit
  split
  · split <;> omega
  · split
    · split <;> omega
    · omega

/-- When `"restaurants"` is among the must-include buckets and meal
requirements hold, its limit in `category_limits` is at least 3 (hence at
least the guaranteed minimum of 2). -/
theorem restaurants_limit_ge (mi : List String) (bal : String)
    (hmem : "restaurants" ∈ mi) :
    ∃ v, (category_limits mi bal true).lookup "restaurants" = some v ∧
      3 ≤ v := by
  have hne : mi ≠ [] := List.ne_nil_of_mem hmem
  have hbase := lookup_foldl_upsert_mem (bucketLimit bal) mi "restaurants"
    hmem []
  have h3 := bucketLimit_ge bal "restaurants"
  unfold category_limits
  rw [if_pos hne]
  dsimp only
  rw [hbase]
  have hcondF : ¬(true = true ∧
      (some (bucketLimit bal "restaurants")).getD 0 < 2) := by
    rw [Option.getD_some]
    rintro ⟨-, hlt⟩
    omega
  rw [if_neg hcondF]
  exact ⟨bucketLimit bal "restaurants",
    lookup_fold_append_keep all_categories _ "restaurants" _ _ hbase, h3⟩

/-- When none of the chosen places' ids are already selected and the chosen
ids are duplicate-free, the phase-1 inner fold appends every chosen place. -/
theorem addAll_chosen (cat : String) (chosen : List Place) :
    ∀ (sel : List Place) (ids : List (Option String))
      (counts : List (String × Nat)),
    (∀ p ∈ chosen, p.id ∉ ids) → (chosen.map Place.id).Nodup →
    (chosen.foldl (fun st p =>
        if st.2.1.contains p.id then st
        else (st.1 ++ [p], st.2.1 ++ [p.id], bumpCount st.2.2 cat))
      (sel, ids, counts)).1 = sel ++ chosen := by
  induction chosen with
  | nil => intro sel ids counts _ _; simp
  | cons p rest ih =>
    intro sel ids counts hno hnd
    rw [List.foldl_cons]
    have hpc : ¬((ids.contains p.id) = true) := by
      simp
      exact hno p (by simp)
    rw [if_neg hpc]
    have hnd2 : (p.id ∉ rest.map Place.id) ∧ (rest.map Place.id).Nodup := by
      rw [List.map_cons] at hnd
      exact List.nodup_cons.mp hnd
    have hno' : ∀ q ∈ rest, q.id ∉ ids ++ [p.id] := by
      intro q hq
      simp only [List.mem_append, List.mem_singleton]
      rintro (h | h)
      · exact hno q (by simp [hq]) h
      · exact hnd2.1 (h ▸ List.mem_map_of_mem Place.id hq)
    rw [ih (sel ++ [p]) (ids ++ [p.id]) (bumpCount counts cat) hno' hnd2.2]
    simp

/-- The first phase-1 iteration, started from the empty selection, selects
exactly the first `limit` places of its bucket (when their ids are
duplicate-free). -/
theorem selectFromCategory_initial (bucket : List Place) (limit : Nat)
    (cat : String) (counts : List (String × Nat))
    (hnd : ((bucket.take limit).map Place.id).Nodup) :
    (selectFromCategory bucket limit cat ([], [], counts)).1
      = bucket.take limit := by
  unfold selectFromCategory
  have hfilter : bucket.filter
      (fun p => !(([] : List (Option String)).contains p.id)) = bucket := by
    simp
  rw [hfilter]
  exact addAll_chosen cat (bucket.take limit) [] [] counts (by simp) hnd

theorem selectFromCategory_mem (bucket : List Place) (limit : Nat)
    (cat : String) (st : SelSt) (x : Place) (hx : x ∈ st.1) :
    x ∈ (selectFromCategory bucket limit cat st).1 := by
  unfold selectFromCategory
  refine foldl_preserve (fun s : SelSt => x ∈ s.1) _ _ _ ?_ hx
  intro s p hs
  split
  · exact hs
  · exact List.mem_append_left _ hs

theorem phase2_mem (buckets : String → List Place)
    (limits : List (String × Nat)) (st0 : SelSt) (rem : Int) (x : Place)
    (hx : x ∈ st0.1) : x ∈ (phase2 buckets limits st0 rem).1.1 := by
  unfold phase2
  refine foldl_preserve (fun s : SelSt × Int => x ∈ s.1.1) _ _ _ ?_ hx
  intro s e hs
  split
  · exact hs
  · dsimp only
    split
    · refine foldl_preserve (fun s : SelSt × Int => x ∈ s.1.1) _ _ _ ?_ hs
      intro s' p hs'
      split
      · exact List.mem_append_left _ hs'
      · exact hs'
    · exact hs

theorem two_le_filter_length {α : Type _} [DecidableEq α] (l : List α)
    (P : α → Bool) (a b : α) (hab : a ≠ b) (ha : a ∈ l) (hb : b ∈ l)
    (hPa : P a) (hPb : P b) : 2 ≤ (l.filter P).length := by
  have ha' : a ∈ l.filter P := List.mem_filter.mpr ⟨ha, hPa⟩
  have hb' : b ∈ l.filter P := List.mem_filter.mpr ⟨hb, hPb⟩
  have hsub : ({a, b} : Finset α) ⊆ (l.filter P).toFinset := by
    intro x hx
    rw [Finset.mem_insert, Finset.mem_singleton] at hx
    rcases hx with rfl | rfl <;> rw [List.mem_toFinset] <;> assumption
  calc 2 = ({a, b} : Finset α).card := (Finset.card_pair hab).symm
    _ ≤ (l.filter P).toFinset.card := Finset.card_le_card hsub
    _ ≤ (l.filter P).length := (l.filter P).toFinset_card_le

/-- Processing the restaurants bucket first with a limit of at least 2
guarantees two restaurant-bucket places in the final selection, provided the
pool ids are duplicate-free and the bucket holds at least two places. -/
theorem pipeline_two_restaurants (places : List Place)
    (limits : List (String × Nat)) (cs : List String) (rem : Int)
    (hnd : (places.map Place.id).Nodup)
    (hlim : 2 ≤ (limits.lookup "restaurants").getD 0)
    (hcount : 2 ≤ (places.filter
      (fun p => categorize p == some "restaurants")).length) :
    2 ≤ (((phase2 (fun cat => places.filter
        (fun p => categorize p == some cat)) limits
      (phase1 (fun cat => places.filter
        (fun p => categorize p == some cat)) limits
        ("restaurants" :: cs)) rem).1.1).filter
      (fun p => categorize p == some "restaurants")).length := by
  have hBnd : ((places.filter
      (fun p => categorize p == some "restaurants")).map Place.id).Nodup :=
    List.Nodup.sublist (List.Sublist.map Place.id (List.filter_sublist _)) hnd
  have hchnd : (((places.filter
      (fun p => categorize p == some "restaurants")).take
        ((limits.lookup "restaurants").getD 0)).map Place.id).Nodup :=
    List.Nodup.sublist (List.Sublist.map Place.id (List.take_sublist _ _)) hBnd
  have hchlen : 2 ≤ ((places.filter
      (fun p => categorize p == some "restaurants")).take
        ((limits.lookup "restaurants").getD 0)).length := by
    rw [List.length_take]
    omega
  obtain ⟨p, q, tl, hpq⟩ : ∃ p q tl, (places.filter
      (fun p => categorize p == some "restaurants")).take
        ((limits.lookup "restaurants").getD 0) = p :: q :: tl := by
    rcases hBt : (places.filter
        (fun p => categorize p == some "restaurants")).take
          ((limits.lookup "restaurants").getD 0) with _ | ⟨p, _ | ⟨q, tl⟩⟩
    · rw [hBt] at hchlen
      simp at hchlen
    · rw [hBt] at hchlen
      simp at hchlen
    · exact ⟨p, q, tl, rfl⟩
  have hne : p ≠ q := by
    intro h
    rw [hpq, List.map_cons, List.map_cons] at hchnd
    exact (List.nodup_cons.mp hchnd).1 (by rw [h]; simp)
  have hfirst : (selectFromCategory
      (places.filter (fun p => categorize p == some "restaurants"))
      ((limits.lookup "restaurants").getD 0) "restaurants"
      ([], [], limits.map (fun e => (e.1, 0)))).1
      = (places.filter (fun p => categorize p == some "restaurants")).take
        ((limits.lookup "restaurants").getD 0) :=
    selectFromCategory_initial _ _ _ _ hchnd
  have hmem : ∀ x, x ∈ (places.filter
      (fun p => categorize p == some "restaurants")).take
        ((limits.lookup "restaurants").getD 0) →
      x ∈ (phase2 (fun cat => places.filter
          (fun p => categorize p == some cat)) limits
        (phase1 (fun cat => places.filter
          (fun p => categorize p == some cat)) limits
          ("restaurants" :: cs)) rem).1.1 := by
    intro x hx
    apply phase2_mem
    unfold phase1
    rw [List.foldl_cons]
    refine foldl_preserve (fun s : SelSt => x ∈ s.1) _ cs _ ?_ ?_
    · intro s cat hs
      exact selectFromCategory_mem _ _ _ _ _ hs
    · dsimp only
      rw [hfirst]
      exact hx
  have hpmem : p ∈ places.filter
      (fun p => categorize p == some "restaurants") :=
    List.mem_of_mem_take (by rw [hpq]; simp)
  have hqmem : q ∈ places.filter
      (fun p => categorize p == some "restaurants") :=
    List.mem_of_mem_take (by rw [hpq]; simp)
  exact two_le_filter_length _ _ p q hne
    (hmem p (by rw [hpq]; simp)) (hmem q (by rw [hpq]; simp))
    (List.mem_filter.mp hpmem).2 (List.mem_filter.mp hqmem).2

/-- **C5, amended.** If `meal_requirements` holds and the candidate pool —
with no duplicate ids — contains at least 2 places mapping to the
restaurant bucket, then the preference-based selection output contains at
least 2 restaurant-bucket places.  (With duplicate-id entries in the pool
the guarantee fails, see the counterexample.) -/
theorem C5_meal_two_restaurants_amended (places : List Place) (prefs : Prefs)
    (q : String) (hmeal : prefs.meal_requirements = true)
    (hnd : (places.map Place.id).Nodup)
    (hcount : 2 ≤ (places.filter
      (fun p => categorize p == some "restaurants")).length) :
    2 ≤ ((preference_based_selection places prefs q).filter
      (fun p => categorize p == some "restaurants")).length := by
  have hpne : places ≠ [] := by
    intro h
    rw [h] at hcount
    simp at hcount
  unfold preference_based_selection
  rw [if_neg hpne]
  dsimp only
  rw [hmeal]
  by_cases hc : prefs.must_include.contains "restaurants" = true
  · have hmi : "restaurants" ∈ prefs.must_include :=
      List.mem_of_elem_eq_true hc
    rw [if_neg (by simp [hmi])]
    have hMIne : prefs.must_include ≠ [] := List.ne_nil_of_mem hmi
    rw [if_pos hMIne, if_pos ⟨rfl, hc⟩]
    obtain ⟨v, hv, h3⟩ := restaurants_limit_ge prefs.must_include
      prefs.balance_mode hmi
    refine pipeline_two_restaurants places _ _ _ hnd ?_ hcount
    rw [hv]
    rw [Option.getD_some]
    omega
  · rw [if_pos ⟨rfl, hc⟩]
    have hmi : "restaurants" ∈ prefs.must_include ++ ["restaurants"] := by
      simp
    have hMIne : prefs.must_include ++ ["restaurants"] ≠ [] := by simp
    rw [if_pos hMIne, if_pos ⟨rfl, by simp⟩]
    obtain ⟨v, hv, h3⟩ := restaurants_limit_ge _ prefs.balance_mode hmi
    refine pipeline_two_restaurants places _ _ _ hnd ?_ hcount
    rw [hv]
    rw [Option.getD_some]
    omega

/-- Concrete pool refuting C5 as stated: three duplicate entries of
restaurant "a" flood the take-limit, and the cafes quota fills
`max_places`, so restaurant "b" is never reached. -/
def c5Places : List Place :=
  [{ id := some "a", name := some "A1",
     category := some "catering.restaurant" },
   { id := some "a", name := some "A2",
     category := some "catering.restaurant" },
   { id := some "a", name := some "A3",
     category := some "catering.restaurant" },
   { id := some "b", category := some "catering.restaurant" },
   { id := some "c1", category := some "catering.cafe" },
   { id := some "c2", category := some "catering.cafe" },
   { id := some "c3", category := some "catering.cafe" }]

/-- Preferences for the C5 counterexample (all fields within the data
model's documented ranges). -/
def c5Prefs : Prefs :=
  { must_include := ["cafes"], max_places := 3, balance_mode := "diverse",
    meal_requirements := true }

/-- **C5, counterexample.** `meal_requirements` is set and the pool holds
at least two restaurant-bucket places (ids "a" and "b"), yet the selection
contains fewer than two. -/
theorem C5_counterexample :
    c5Prefs.meal_requirements = true ∧
    2 ≤ (c5Places.filter
      (fun p => categorize p == some "restaurants")).length ∧
    ¬ (2 ≤ ((preference_based_selection c5Places c5Prefs "").filter
        (fun p => categorize p == some "restaurants")).length) := by
  refine ⟨rfl, ?_, ?_⟩ <;> decide

/-- Witness pool for C5 (amended): two distinct restaurants. -/
def c5wPlaces : List Place :=
  [{ id := some "r1", category := some "catering.restaurant" },
   { id := some "r2", category := some "catering.fast_food" },
   { id := some "k", category := some "leisure.park" }]

/-- Witness preferences for C5 (amended). -/
def c5wPrefs : Prefs :=
  { must_include := [], max_places := 12, balance_mode := "balanced",
    meal_requirements := true }

/-- Witness for C5 (amended) at a concrete pool. -/
theorem C5_witness :
    2 ≤ ((preference_based_selection c5wPlaces c5wPrefs "").filter
      (fun p => categorize p == some "restaurants")).length :=
  C5_meal_two_restaurants_amended c5wPlaces c5wPrefs "" rfl (by decide)
    (by decide)

/-! ### C9 — fallback ordering -/

/-- Squared planar distance.  Used only by the spec-modelled
nearest-neighbor route below; the spec names no metric, and the
counterexample is robust to any metric that ranks a 1-unit hop below a
10-unit hop. -/
def sqDist (a b : Place) : ℚ :=
  (a.lat - b.lat) * (a.lat - b.lat) + (a.lng - b.lng) * (a.lng - b.lng)

/-- The place of `l` closest to `c` (first minimum) together with the
remaining places.  Part of the spec-modelled nearest-neighbor route. -/
def nnPick (c : Place) : List Place → Option (Place × List Place)
  | [] => none
  | p :: rest =>
    match nnPick c rest with
    | some (q, rest') =>
      if sqDist c p ≤ sqDist c q then some (p, rest)
      else some (q, p :: rest')
    | none => some (p, [])

/-- Fuelled greedy extension of the route. -/
def specNNGo : Nat → Place → List Place → List Place
  | 0, _, _ => []
  | n + 1, c, l =>
    match nnPick c l with
    | none => []
    | some (q, rest) => q :: specNNGo n q rest

/-- Modelled from the spec's words (§4.4): "a greedy nearest-neighbor
route: repeatedly append the unvisited place closest to the current end of
the built route, starting from the first place".  Stated for comparison
with the code's fallback — no such routine exists in `ai_service.py`. -/
def specNearestNeighborRoute : List Place → List Place
  | [] => []
  | p :: rest => p :: specNNGo rest.length p rest

/-- Three places for which the greedy nearest-neighbor route differs from
the input order: from (0,0), the place at (0,1) is closer than the place at
(0,10). -/
def c9Places : List Place :=
  [{ id := some "a", lat := 0, lng := 0 },
   { id := some "b", lat := 0, lng := 10 },
   { id := some "c", lat := 0, lng := 1 }]

/-- **C9, counterexample.** On a 3-place input with no valid ordering in
the response, `ai_optimization` returns the input order, not the greedy
nearest-neighbor route the spec describes. -/
theorem C9_counterexample :
    c9Places.length = 3 ∧
    (ai_optimization c9Places
      (some { ordered_indices := none })).1 = c9Places ∧
    specNearestNeighborRoute c9Places ≠ c9Places := by
  refine ⟨rfl, rfl, ?_⟩
  have h1 : specNearestNeighborRoute c9Places =
      [{ id := some "a", lat := 0, lng := 0 },
       { id := some "c", lat := 0, lng := 1 },
       { id := some "b", lat := 0, lng := 10 }] := by
    rw [c9Places, specNearestNeighborRoute]
    norm_num [specNNGo, nnPick, sqDist]
  rw [h1, c9Places]
  intro h
  have h2 := congrArg (fun l : List Place => l.get? 1) h
  simp at h2

/-- **C9, amended.** When the collaborator's response provides no valid
ordering — the response is missing entirely, or its `ordered_indices` field
is absent or an empty list — the Place Selector returns the places in their
original input order (for any input size, in particular 1–3 places); no
nearest-neighbor reordering is performed. -/
theorem C9_fallback_input_order_amended (places : List Place)
    (resp : Option AiResponse)
    (hno : resp = none ∨ ∃ r, resp = some r ∧
      (r.ordered_indices = none ∨ r.ordered_indices = some [])) :
    (ai_optimization places resp).1 = places := by
  rcases hno with rfl | ⟨r, rfl, hr⟩
  · rfl
  · obtain ⟨selF, ordF, ovF, rvF, durF⟩ := r
    rcases hr with h | h
    · simp only at h
      subst h
      rfl
    · simp only at h
      subst h
      simp [ai_optimization, ai_optimization_parse]

/-- Witness for C9 (amended) at a concrete 3-place input. -/
theorem C9_witness :
    (ai_optimization c9Places (some { ordered_indices := none })).1
      = c9Places :=
  C9_fallback_input_order_amended c9Places _ (Or.inr ⟨_, rfl, Or.inl rfl⟩)

/-! ### `public_data_service.py` — POI discovery and deduplication -/

/-- A cached or generated POI as `search_pois_near_location` handles it:
the fields read by `_deduplicate_pois` and the endpoint (`poi_id`,
`name`, GeoJSON `[lng, lat]` coordinates, `category`). -/
structure POI where
  poi_id : Option String := none
  name : String := ""
  lng : ℚ := 0
  lat : ℚ := 0
  category : Option String := none
deriving DecidableEq, Repr

/-- Python `str.split()` restricted to spaces (the separator appearing in
POI names), dropping empty words; written over the character list so that
concrete evaluation reduces in the kernel. -/
def wordsAux : List Char → List Char → List String
  | [], cur => if cur = [] then [] else [String.mk cur.reverse]
  | c :: rest, cur =>
    if c = ' ' then
      if cur = [] then wordsAux rest []
      else String.mk cur.reverse :: wordsAux rest []
    else wordsAux rest (c :: cur)

/-- The word list of a string. -/
def strWords (s : String) : List String := wordsAux s.data []

/-- The duplicate test of `_deduplicate_pois` (lines 540–548): the two POIs
are within 50 meters under the flat approximation
`sqrt(lat_diff² + lng_diff²) * 111000 < 50` — stated in the squared,
radical-free equivalent — and their lowercased names share a word. -/
def isDuplicatePoi (a b : POI) : Prop :=
  ((a.lat - b.lat) * (a.lat - b.lat) + (a.lng - b.lng) * (a.lng - b.lng))
    * (111000 * 111000) < 50 * 50
  ∧ (strWords (lowerStr a.name)).inter (strWords (lowerStr b.name)) ≠ []

instance (a b : POI) : Decidable (isDuplicatePoi a b) := by
  unfold isDuplicatePoi
  infer_instance

/-- The loop of `_deduplicate_pois`: `seen` holds the kept POIs
(coordinates and lowercased name, which is the information the test
reads). -/
def dedupGo : List POI → List POI → List POI
  | [], _ => []
  | p :: rest, seen =>
    if seen.any (fun q => decide (isDuplicatePoi p q)) then dedupGo rest seen
    else p :: dedupGo rest (seen ++ [p])

/-- `_deduplicate_pois` (lines 527–556). -/
def deduplicate_pois (pois : List POI) : List POI := dedupGo pois []

/-- `search_pois_near_location` (lines 23–103) as a function of the
outcomes of its IO steps: `location_pois` is the count of POIs previously
generated for this location, `existing_pois` the `_search_existing_pois`
result, `new_pois` the `_generate_pois_from_apis` result (`[]` when the
Geoapify key is missing or every category call fails — that function
swallows its errors), and `rank` abstracts `_apply_intelligent_ranking`, a
pure reordering whose float scoring fixes no integer semantics (every
claim below holds for an arbitrary reordering).  `_store_new_pois` only
writes to the database.  The cache-hit fast path returns the existing POIs
without deduplication. -/
def search_pois_near_location (rank : List POI → List POI)
    (location_pois : Nat) (existing_pois new_pois : List POI)
    (lim : Nat) : List POI :=
  let min_threshold := if location_pois > 0 then min 10 (lim / 3)
    else min 25 (lim / 2)
  if existing_pois.length ≥ min_threshold then existing_pois.take lim
  else
    let all_pois := existing_pois ++ new_pois
    let enhanced := rank all_pois
    (deduplicate_pois enhanced).take lim

/-- The `try/except` wrapper at lines 44 and 99–103: any raise inside the
body makes discovery return `[]` instead of propagating. -/
def search_pois_guarded (dbFailure : Bool) (rank : List POI → List POI)
    (location_pois : Nat) (existing_pois new_pois : List POI)
    (lim : Nat) : List POI :=
  if dbFailure then []
  else search_pois_near_location rank location_pois existing_pois new_pois lim

/-- The empty-database message of
`generate_schedule_from_location` (line 173). -/
def emptyDbMsg : String :=
  "No POI data available in database. Please import POI data first."

/-- The data-elsewhere message (lines 175–179). -/
def otherAreasMsg (searchRadius totalPois : Nat) : String :=
  "No POIs found within " ++ toString searchRadius ++
  "m of your location. Database contains " ++ toString totalPois ++
  " POIs in other areas. Try searching in a different location or " ++
  "contact support to add POI data for your area."

/-- The zero-POI guard of `generate_schedule_from_location`
(lines 165–181): an empty discovery result raises HTTP 404 with a message
chosen by whether the whole database is empty; the guard is transparent
otherwise.  The `except HTTPException: raise` at line 293 lets this error
through unchanged. -/
def locationNoDataGuard (nearbyPois : List POI)
    (totalPois searchRadius : Nat) : Option (Nat × String) :=
  if nearbyPois = [] then
    some (404, if totalPois = 0 then emptyDbMsg
      else otherAreasMsg searchRadius totalPois)
  else none

theorem isDuplicatePoi_symm (a b : POI) :
    isDuplicatePoi a b ↔ isDuplicatePoi b a := by
  unfold isDuplicatePoi
  have hd : (a.lat - b.lat) * (a.lat - b.lat) +
      (a.lng - b.lng) * (a.lng - b.lng)
      = (b.lat - a.lat) * (b.lat - a.lat) +
        (b.lng - a.lng) * (b.lng - a.lng) := by ring
  have hw : ((strWords (lowerStr a.name)).inter
        (strWords (lowerStr b.name)) ≠ []) ↔
      ((strWords (lowerStr b.name)).inter
        (strWords (lowerStr a.name)) ≠ []) := by
    constructor <;>
    · intro h
      obtain ⟨x, hx⟩ := List.exists_mem_of_ne_nil _ h
      have hx1 := List.mem_inter_iff.mp hx
      exact List.ne_nil_of_mem (List.mem_inter_iff.mpr ⟨hx1.2, hx1.1⟩)
  rw [hd, hw]

theorem dedupGo_subset : ∀ (l seen : List POI), ∀ p ∈ dedupGo l seen, p ∈ l := by
  intro l
  induction l with
  | nil => intro seen p hp; simp [dedupGo] at hp
  | cons a rest ih =>
    intro seen p hp
    rw [dedupGo] at hp
    split at hp
    · exact List.mem_cons_of_mem _ (ih seen p hp)
    · rcases List.mem_cons.mp hp with rfl | hp'
      · exact List.mem_cons_self _ _
      · exact List.mem_cons_of_mem _ (ih _ p hp')

theorem dedupGo_sublist : ∀ (l seen : List POI), (dedupGo l seen).Sublist l := by
  intro l
  induction l with
  | nil => intro seen; simp [dedupGo]
  | cons a rest ih =>
    intro seen
    rw [dedupGo]
    split
    · exact List.Sublist.cons _ (ih seen)
    · exact List.Sublist.cons₂ _ (ih _)

theorem dedupGo_not_dup_seen : ∀ (l seen : List POI) (q : POI),
    q ∈ dedupGo l seen → ∀ s ∈ seen, ¬ isDuplicatePoi q s := by
  intro l
  induction l with
  | nil => intro seen q hq; simp [dedupGo] at hq
  | cons p rest ih =>
    intro seen q hq s hs
    rw [dedupGo] at hq
    split at hq
    · exact ih seen q hq s hs
    · rename_i hany
      rcases List.mem_cons.mp hq with rfl | hq'
      · intro hdup
        exact hany (List.any_eq_true.mpr ⟨s, hs, by simpa using hdup⟩)
      · exact ih (seen ++ [p]) q hq' s (List.mem_append_left _ hs)

theorem dedupGo_pairwise : ∀ (l seen : List POI),
    List.Pairwise (fun a b => ¬ isDuplicatePoi a b) (dedupGo l seen) := by
  intro l
  induction l with
  | nil => intro seen; simp [dedupGo]
  | cons p rest ih =>
    intro seen
    rw [dedupGo]
    split
    · exact ih seen
    · refine List.Pairwise.cons ?_ (ih (seen ++ [p]))
      intro b hb
      have hnd := dedupGo_not_dup_seen rest (seen ++ [p]) b hb p (by simp)
      intro hd
      exact hnd ((isDuplicatePoi_symm p b).mp hd)

theorem dedupGo_dropped : ∀ (l seen : List POI), ∀ p ∈ l,
    p ∉ dedupGo l seen →
    ∃ q, (q ∈ seen ∨ q ∈ dedupGo l seen) ∧ isDuplicatePoi p q := by
  intro l
  induction l with
  | nil => intro seen p hp; simp at hp
  | cons a rest ih =>
    intro seen p hp hnot
    rw [dedupGo] at hnot ⊢
    by_cases hany : (seen.any fun q => decide (isDuplicatePoi a q)) = true
    · rw [if_pos hany] at hnot ⊢
      rcases List.mem_cons.mp hp with rfl | hp'
      · obtain ⟨s, hs, hds⟩ := List.any_eq_true.mp hany
        exact ⟨s, Or.inl hs, by simpa using hds⟩
      · exact ih seen p hp' hnot
    · rw [if_neg hany] at hnot ⊢
      rcases List.mem_cons.mp hp with rfl | hp'
      · exact absurd (List.mem_cons_self _ _) hnot
      · have hnot' : p ∉ dedupGo rest (seen ++ [a]) := by
          intro hmem
          exact hnot (List.mem_cons_of_mem _ hmem)
        obtain ⟨q, hq, hd⟩ := ih (seen ++ [a]) p hp' hnot'
        rcases hq with hq | hq
        · rcases List.mem_append.mp hq with hq' | hq'
          · exact ⟨q, Or.inl hq', hd⟩
          · have hqa : q = a := by simpa using hq'
            exact ⟨q, Or.inr (by rw [hqa]; exact List.mem_cons_self _ _), hd⟩
        · exact ⟨q, Or.inr (List.mem_cons_of_mem _ hq), hd⟩

/-- Two POIs at the same coordinates sharing both name words. -/
def c6A : POI := { poi_id := some "1", name := "Cafe Luna", lat := 10, lng := 20 }

/-- The colliding partner of `c6A`. -/
def c6B : POI := { poi_id := some "2", name := "Luna Cafe", lat := 10, lng := 20 }

/-- **C6, counterexample.** On the cache-hit fast path (a previously
generated location whose cached results meet the threshold),
`search_pois_near_location` returns the cached list without running
`_deduplicate_pois`, so two colliding places are both returned. -/
theorem C6_counterexample :
    search_pois_near_location (fun l => l) 1 [c6A, c6B] [] 3 = [c6A, c6B] ∧
    ¬ List.Pairwise (fun a b => ¬ isDuplicatePoi a b)
      (search_pois_near_location (fun l => l) 1 [c6A, c6B] [] 3) := by
  refine ⟨rfl, ?_⟩
  rw [show search_pois_near_location (fun l => l) 1 [c6A, c6B] [] 3
    = [c6A, c6B] from rfl]
  intro hpw
  have hnd := (List.pairwise_cons.mp hpw).1 c6B (by simp)
  apply hnd
  unfold isDuplicatePoi
  constructor
  · show ((c6A.lat - c6B.lat) * (c6A.lat - c6B.lat) +
      (c6A.lng - c6B.lng) * (c6A.lng - c6B.lng)) * (111000 * 111000) < 50 * 50
    norm_num [c6A, c6B]
  · decide

/-- **C6, amended.** On the generation/merge path — when the cached results
fall below the sufficiency threshold — no two returned places collide under
the duplicate test (within ~50 meters with a shared name word); the
deduplicated list preserves the ranked order (it is a sublist), and every
ranked candidate that is dropped collides with one of the kept (earlier,
hence higher-ranked) places.  On the cache-hit fast path the cached list is
returned without deduplication, as the counterexample shows. -/
theorem C6_dedup_amended (rank : List POI → List POI) (location_pois : Nat)
    (existing new_pois : List POI) (lim : Nat)
    (hmiss : existing.length <
      (if location_pois > 0 then min 10 (lim / 3) else min 25 (lim / 2))) :
    List.Pairwise (fun a b => ¬ isDuplicatePoi a b)
      (search_pois_near_location rank location_pois existing new_pois lim) ∧
    (search_pois_near_location rank location_pois existing new_pois lim).Sublist
      (deduplicate_pois (rank (existing ++ new_pois))) ∧
    (deduplicate_pois (rank (existing ++ new_pois))).Sublist
      (rank (existing ++ new_pois)) ∧
    (∀ p ∈ rank (existing ++ new_pois),
      p ∉ deduplicate_pois (rank (existing ++ new_pois)) →
      ∃ q ∈ deduplicate_pois (rank (existing ++ new_pois)),
        isDuplicatePoi p q) := by
  have hout : search_pois_near_location rank location_pois existing new_pois
      lim = (deduplicate_pois (rank (existing ++ new_pois))).take lim := by
    unfold search_pois_near_location
    rw [if_neg (by omega)]
  refine ⟨?_, ?_, ?_, ?_⟩
  · rw [hout]
    exact List.Pairwise.sublist (List.take_sublist _ _)
      (dedupGo_pairwise _ [])
  · rw [hout]
    exact List.take_sublist _ _
  · exact dedupGo_sublist _ []
  · intro p hp hnot
    obtain ⟨q, hq, hd⟩ := dedupGo_dropped _ [] p hp hnot
    rcases hq with hq | hq
    · simp at hq
    · exact ⟨q, hq, hd⟩

/-- Witness for C6 (amended): a cold location with an empty cache forces
the generation path. -/
theorem C6_witness :
    ([] : List POI).length <
      (if (0 : Nat) > 0 then min 10 (50 / 3) else min 25 (50 / 2)) ∧
    List.Pairwise (fun a b => ¬ isDuplicatePoi a b)
      (search_pois_near_location (fun l => l) 0 [] [c6A, c6B] 50) :=
  ⟨by decide,
   (C6_dedup_amended (fun l => l) 0 [] [c6A, c6B] 50 (by decide)).1⟩

/-- **C7.** Discovery never raises — any internal failure is caught and
yields `[]`, and when the provider is unconfigured or every category call
fails (`new_pois = []`) every returned POI comes from the cache; and the
schedule-from-location endpoint answers an empty discovery result with
HTTP 404, choosing between two distinct messages according to whether the
whole database is empty. -/
theorem C7_failure_policy :
    (∀ (rank : List POI → List POI) (location_pois lim : Nat)
       (existing : List POI),
      (∀ (l : List POI) (p : POI), p ∈ rank l → p ∈ l) →
      ∀ p ∈ search_pois_near_location rank location_pois existing [] lim,
        p ∈ existing) ∧
    (∀ (rank : List POI → List POI) (location_pois lim : Nat)
       (existing new_pois : List POI),
      search_pois_guarded true rank location_pois existing new_pois lim
        = []) ∧
    (∀ (nearby : List POI) (total radius : Nat),
      (nearby = [] → locationNoDataGuard nearby total radius =
        some (404, if total = 0 then emptyDbMsg
          else otherAreasMsg radius total)) ∧
      (nearby ≠ [] → locationNoDataGuard nearby total radius = none)) ∧
    (∀ (radius total : Nat), emptyDbMsg ≠ otherAreasMsg radius total) := by
  refine ⟨?_, ?_, ?_, ?_⟩
  · intro rank location_pois lim existing hrank p hp
    unfold search_pois_near_location at hp
    dsimp only at hp
    by_cases hc : existing.length ≥
        (if location_pois > 0 then min 10 (lim / 3) else min 25 (lim / 2))
    · rw [if_pos hc] at hp
      exact List.mem_of_mem_take hp
    · rw [if_neg hc] at hp
      have h1 := List.mem_of_mem_take hp
      have h2 := dedupGo_subset _ [] p h1
      have h3 := hrank _ p h2
      simpa using h3
  · intro rank location_pois lim existing new_pois
    rfl
  · intro nearby total radius
    constructor
    · intro h
      rw [locationNoDataGuard, if_pos h]
    · intro h
      rw [locationNoDataGuard, if_neg h]
  · intro radius total h
    have hlen := congrArg String.length h
    rw [otherAreasMsg] at hlen
    simp only [String.length_append] at hlen
    have h1 : emptyDbMsg.length = 64 := by decide
    have h2 : ("No POIs found within " : String).length = 21 := by decide
    have h3 : ("m of your location. Database contains " : String).length = 38 := by decide
    have h4 : (" POIs in other areas. Try searching in a different location or " : String).length = 63 := by decide
    have h5 : ("contact support to add POI data for your area." : String).length = 46 := by decide
    omega

/-- Witness for C7 at concrete inputs. -/
theorem C7_witness :
    (∀ p ∈ search_pois_near_location (fun l => l) 0 [c6A] [] 50, p ∈ [c6A]) ∧
    search_pois_guarded true (fun l => l) 0 [c6A] [] 50 = [] ∧
    locationNoDataGuard [] 0 5000 = some (404, emptyDbMsg) ∧
    locationNoDataGuard [] 7 5000 = some (404, otherAreasMsg 5000 7) ∧
    emptyDbMsg ≠ otherAreasMsg 5000 7 := by
  refine ⟨?_, ?_, ?_, ?_, ?_⟩
  · exact C7_failure_policy.1 (fun l => l) 0 50 [c6A] (fun l p hp => hp)
  · exact C7_failure_policy.2.1 (fun l => l) 0 50 [c6A] []
  · simpa using (C7_failure_policy.2.2.1 [] 0 5000).1 rfl
  · simpa using (C7_failure_policy.2.2.1 [] 7 5000).1 rfl
  · exact C7_failure_policy.2.2.2 5000 7

/-! ### `routes/schedules.py` — the create-schedule guard (C10) -/

/-- The guard message at lines 41–44 of `routes/schedules.py`. -/
def minPlacesMsg : String :=
  "At least 3 places are required to create a new schedule"

/-- The control flow of `create_schedule` (lines 17–95) as far as the
minimum-places guard decides it: a new schedule (no `day_overview`) with
fewer than 3 places raises `HTTPException(400, minPlacesMsg)` before any
selection or schedule construction; every other request proceeds (modelled
as `ok`).  The surrounding `try/except Exception` at line 93 catches
FastAPI's `HTTPException` — a subclass of `Exception` — and re-raises it as
HTTP 500 with detail `"Failed to generate schedule: " + str(e)`, where
`str` of an `HTTPException` formats as `"{status_code}: {detail}"`.
(The sibling endpoint re-raises `HTTPException` untouched at line 293; this
one does not.) -/
def create_schedule_route (day_overview : Option String) (numPlaces : Nat) :
    Except (Nat × String) Unit :=
  let is_new_schedule := day_overview.isNone
  let body : Except (Nat × String) Unit :=
    if is_new_schedule ∧ numPlaces < 3 then
      Except.error (400, minPlacesMsg)
    else Except.ok ()
  match body with
  | Except.ok u => Except.ok u
  | Except.error e =>
    Except.error (500,
      "Failed to generate schedule: " ++ toString e.1 ++ ": " ++ e.2)

/-- **C10.** A new-schedule request (no day_overview) with fewer than 3
places is rejected before any selection or construction — but the status
surfaced is 500, wrapping the 400 guard message, because the endpoint's own
blanket `except Exception` catches the `HTTPException` it raised; requests
carrying a `day_overview` or at least 3 places pass the guard. -/
theorem C10_guard_behavior :
    create_schedule_route none 2 = Except.error (500,
      "Failed to generate schedule: 400: " ++ minPlacesMsg) ∧
    create_schedule_route (some "overview") 2 = Except.ok () ∧
    create_schedule_route none 3 = Except.ok () := by
  refine ⟨?_, rfl, rfl⟩
  rfl
